import Mathlib

/-!
# PN532 framing layer (src/nfc.c): shallow embedding and verification

Bytes are natural numbers below 256.  Memory reached through a C pointer is a
function from byte offsets to bytes; a pointer into `frame_buffer` is the
offset it points at.  Offsets from 263 on stand for whatever lies in memory
behind the 263-byte array.  `uint8_t` arithmetic is `% 256` on `Nat`;
`int8_t` values are `Int`s produced by `i8` (two's-complement wrap, the
conversion every C compiler for this target implements).

The bus is scripted: `World.bus_in` lists, for each future `MSS_I2C_read`
transaction, the byte stream the slave clocks out; `World.log` records every
bus transaction the code performs.
-/

namespace PN532

/-! ## Constants (`#define`s and file-scope arrays) -/

def PN532_PREAMBLE : Nat := 0x00
def PN532_STARTCODE1 : Nat := 0x00
def PN532_STARTCODE2 : Nat := 0xFF
def PN532_POSTAMBLE : Nat := 0x00
def PN532_ACK_LENGTH : Nat := 6
def PN532_FRAME_HEADER_BYTES : Nat := 7
def PN532_HOSTTOPN532 : Nat := 0xD4
def PN532_PN532TOHOST : Nat := 0xD5
def PN532_ERROR : Nat := 0x7F

def pn532_ack : List Nat := [0x00, 0x00, 0xFF, 0x00, 0xFF, 0x00]
def pn532_nack : List Nat := [0x00, 0x00, 0xFF, 0xFF, 0x00, 0x00]

/-- Number of elements of `static uint8_t frame_buffer[255 + 7 + 1]`. -/
def frame_buffer_size : Nat := 255 + PN532_FRAME_HEADER_BYTES + 1

/-! ## Machine integers and memory -/

/-- Memory seen through a `uint8_t *`: offset to byte. -/
abbrev Mem := Nat → Nat

/-- Conversion of a C `int` to `uint8_t`. -/
def u8 (x : Int) : Nat := (x % 256).toNat

/-- Conversion of a C `int` to `int8_t` (two's-complement wrap). -/
def i8 (x : Int) : Int := (x + 128) % 256 - 128

/-- A C array initialiser viewed as memory (bytes behind the array read as 0). -/
def arr (l : List Nat) : Mem := fun i => l.getD i 0

/-- Store `m[p] = v`. -/
def store (m : Mem) (p v : Nat) : Mem := fun j => if j = p then v else m j

/-- The `n` bytes of `m` starting at offset `p`. -/
def bytes (m : Mem) (p n : Nat) : List Nat := (List.range n).map (fun i => m (p + i))

/-! ## `seek_start` -/

/-- Loop variables of `seek_start`. -/
structure SeekState where
  prev : Nat
  current : Nat
  offset : Nat
  buf : Nat
deriving DecidableEq, Repr

/-- Value of `max_offset` in `seek_start`. -/
def max_offset : Nat := 263

/-- The `while` loop of `seek_start`; every iteration reads the one byte `*buf`.
`fuel` bounds the number of iterations (263 is always enough, see
`seek_start_loop_exit`). -/
def seek_start_loop (m : Mem) : Nat → SeekState → SeekState
  | 0, s => s
  | fuel + 1, s =>
    if s.offset < max_offset ∧ ¬ (s.prev = 0 ∧ s.current = 0xFF) then
      seek_start_loop m fuel
        { prev := s.current, current := m s.buf, offset := s.offset + 1, buf := s.buf + 1 }
    else s

/-- State in which the loop of `seek_start m buf` ends. -/
def seek_start_final (m : Mem) (buf : Nat) : SeekState :=
  seek_start_loop m max_offset { prev := 0xFF, current := 0xFF, offset := 0, buf := buf }

/-- The C function `seek_start`: `none` when `assert(offset < max_offset)` fails,
otherwise the returned pointer. -/
def seek_start (m : Mem) (buf : Nat) : Option Nat :=
  let s := seek_start_final m buf
  if s.offset < max_offset then some s.buf else none

/-! ## The bus and the transport functions -/

/-- A transaction on the I2C bus. -/
inductive Event
  | write (data : List Nat)
  | read (count : Nat)
deriving DecidableEq, Repr

/-- The global `frame_buffer`, the script of the slave (one byte stream per
future `MSS_I2C_read` transaction) and the transactions performed so far. -/
structure World where
  frame_buffer : Mem
  bus_in : List Mem
  log : List Event

/-- How a call ends: it returns a value, an `assert` fails, or it is still
spinning when the script of the slave is used up. -/
inductive Outcome
  | ret (v : Nat)
  | assert_fail
  | hang
deriving DecidableEq, Repr

/-- The function `wait_ready` spins on the interrupt line; it touches neither
memory nor the bus, and is modelled as returning. -/
def wait_ready (w : World) : World := w

/-- Driver call `MSS_I2C_write` followed by `MSS_I2C_wait_complete`, as used by
`I2C_send`: `length` bytes of `buffer` go out on the bus. -/
def I2C_send (buffer : Mem) (length : Nat) (w : World) : World :=
  { w with log := w.log ++ [Event.write (bytes buffer 0 length)] }

/-- Driver call `MSS_I2C_read`: the first `length` bytes of the slave's stream
land in the buffer, the rest of the buffer keeps its contents. -/
def MSS_I2C_read (stream : Mem) (length : Nat) (buffer : Mem) : Mem :=
  fun i => if i < length then stream i else buffer i

/-- The `do ... while (frame_buffer[0] != 1)` loop of `I2C_read`; one element
of the script is used per raw read.  The flag is `false` when the script ends
while the loop is still running. -/
def I2C_read_loop (length : Nat) : List Mem → World → Bool × World
  | [], w => (false, { w with bus_in := [] })
  | s :: rest, w =>
    let w1 : World :=
      { frame_buffer := MSS_I2C_read s length w.frame_buffer
        bus_in := rest
        log := w.log ++ [Event.read length] }
    if w1.frame_buffer 0 ≠ 1 then I2C_read_loop length rest w1 else (true, w1)

/-- The C function `I2C_read`; the argument is the `uint8_t` parameter.  Returns
the pointer `frame_buffer + 1`, or `none` when it never returns. -/
def I2C_read (length : Nat) (w : World) : Option Nat × World :=
  let length := (length + 1) % 256
  match I2C_read_loop length w.bus_in w with
  | (true, w1) => (some 1, w1)
  | (false, w1) => (none, w1)

def send_ack (w : World) : World := I2C_send (arr pn532_ack) 6 w

def send_nack (w : World) : World := I2C_send (arr pn532_nack) 6 w

/-- C library `strncmp(s1 + p1, s2 + p2, n)`: compares at most `n` characters
as `unsigned char`, and nothing behind a null character. -/
def strncmp (s1 : Mem) (p1 : Nat) (s2 : Mem) (p2 : Nat) : Nat → Int
  | 0 => 0
  | n + 1 =>
    if s1 p1 ≠ s2 p2 then (s1 p1 : Int) - (s2 p2 : Int)
    else if s1 p1 = 0 then 0
    else strncmp s1 (p1 + 1) s2 (p2 + 1) n

/-- The C function `read_ack`: returns 1 or 0. -/
def read_ack (w : World) : Outcome × World :=
  let w := wait_ready w
  match I2C_read PN532_ACK_LENGTH w with
  | (none, w) => (Outcome.hang, w)
  | (some response, w) =>
    (Outcome.ret (if 0 = strncmp w.frame_buffer response (arr pn532_ack) 0 6 then 1 else 0), w)

/-! ## `NFC_read` -/

/-- Variables of the copy loop of `NFC_read`. -/
structure CopyState where
  i : Nat
  read_data : Mem
  data_sum : Int
  response_pos : Nat

/-- The `for (i = 0; i < length - 1; i++)` loop of `NFC_read`; `length` is the
`int8_t` variable, so at most 126 iterations happen. -/
def NFC_read_copy (fb : Mem) (length : Int) : Nat → CopyState → CopyState
  | 0, s => s
  | fuel + 1, s =>
    if (s.i : Int) < length - 1 then
      NFC_read_copy fb length fuel
        { i := (s.i + 1) % 256
          read_data := store s.read_data s.i (fb s.response_pos)
          data_sum := i8 (s.data_sum + (fb s.response_pos : Int))
          response_pos := s.response_pos + 1 }
    else s

/-- How one pass through the body of `while (1)` in `NFC_read` ends. -/
inductive Iter
  | again
  | done (r : Outcome)
deriving DecidableEq, Repr

/-- One pass through the body of the `while (1)` loop of `NFC_read`:
`continue` is `Iter.again`; `return 0`, a failed `assert`, and `break` followed
by `return length - 1` are `Iter.done`. -/
def NFC_read_iter (read_data : Mem) (data_length : Nat) (w : World) : Iter × Mem × World :=
  let w := wait_ready w
  match I2C_read ((data_length + PN532_FRAME_HEADER_BYTES) % 256) w with
  | (none, w) => (Iter.done Outcome.hang, read_data, w)
  | (some response_pos, w) =>
    match seek_start w.frame_buffer response_pos with
    | none => (Iter.done Outcome.assert_fail, read_data, w)
    | some response_pos =>
      let length : Int := i8 (w.frame_buffer response_pos)
      let response_pos := response_pos + 1
      let length_check : Int := i8 (w.frame_buffer response_pos)
      let response_pos := response_pos + 1
      if length + length_check ≠ 0 then (Iter.again, read_data, send_nack w)
      else
        let data_sum : Int := 0
        if w.frame_buffer response_pos = PN532_ERROR then
          (Iter.done (Outcome.ret 0), read_data, w)
        else if w.frame_buffer response_pos ≠ PN532_PN532TOHOST then
          (Iter.done Outcome.assert_fail, read_data, w)
        else
          let data_sum := i8 (data_sum + (w.frame_buffer response_pos : Int))
          let response_pos := response_pos + 1
          let c := NFC_read_copy w.frame_buffer length 256
            { i := 0, read_data := read_data, data_sum := data_sum, response_pos := response_pos }
          let data_check : Int := i8 (w.frame_buffer c.response_pos)
          if c.data_sum + data_check ≠ 0 then (Iter.again, c.read_data, send_nack w)
          else (Iter.done (Outcome.ret (u8 (length - 1))), c.read_data, send_ack w)

/-- Result of `NFC_read`: how it ended, the caller's buffer, the world. -/
structure ReadResult where
  outcome : Outcome
  read_data : Mem
  world : World

/-- The `while (1)` loop of `NFC_read`. -/
def NFC_read_loop (data_length : Nat) : Nat → Mem → World → ReadResult
  | 0, read_data, w => ⟨Outcome.hang, read_data, w⟩
  | fuel + 1, read_data, w =>
    match NFC_read_iter read_data data_length w with
    | (Iter.again, read_data, w) => NFC_read_loop data_length fuel read_data w
    | (Iter.done r, read_data, w) => ⟨r, read_data, w⟩

/-- The C function `NFC_read`.  Every pass of the loop uses at least one
element of the script, so the fuel is never used up (`NFC_read_loop_fuel`). -/
def NFC_read (read_data : Mem) (data_length : Nat) (w : World) : ReadResult :=
  NFC_read_loop data_length (w.bus_in.length + 1) read_data w

/-! ## `NFC_write` -/

/-- Variables of the payload loop of `NFC_write`. -/
structure FillState where
  i : Nat
  index : Nat
  checksum : Nat
  frame_buffer : Mem

/-- The `for (i = 0; i < length - 1; i++)` loop of `NFC_write`; `length` is the
already incremented `uint8_t` variable. -/
def NFC_write_fill (write_data : Mem) (length : Nat) : Nat → FillState → FillState
  | 0, s => s
  | fuel + 1, s =>
    if (s.i : Int) < (length : Int) - 1 then
      NFC_write_fill write_data length fuel
        { i := (s.i + 1) % 256
          index := (s.index + 1) % 256
          checksum := (s.checksum + write_data s.i) % 256
          frame_buffer := store s.frame_buffer s.index (write_data s.i) }
    else s

/-- The C operator `~` on an `int`. -/
def bnot (x : Int) : Int := -x - 1

/-- State of `NFC_write` just before `I2C_send(frame_buffer, index)`: the
frame buffer, `index`, and the bytes computed for the length, length checksum
and data checksum fields. -/
structure Built where
  frame_buffer : Mem
  index : Nat
  len : Nat
  lcs : Nat
  dcs : Nat

/-- The part of `NFC_write` that assembles the frame in `frame_buffer`. -/
def NFC_write_build (fb : Mem) (write_data : Mem) (length : Nat) : Built :=
  let index := 0
  let length := (length + 1) % 256
  let fb := store fb index PN532_PREAMBLE
  let index := (index + 1) % 256
  let fb := store fb index PN532_PREAMBLE
  let index := (index + 1) % 256
  let fb := store fb index PN532_STARTCODE2
  let index := (index + 1) % 256
  let fb := store fb index length
  let index := (index + 1) % 256
  let lcs := u8 (bnot length + 1)
  let fb := store fb index lcs
  let index := (index + 1) % 256
  let checksum := 0
  let checksum := (checksum + PN532_HOSTTOPN532) % 256
  let fb := store fb index PN532_HOSTTOPN532
  let index := (index + 1) % 256
  let s := NFC_write_fill write_data length 256
    { i := 0, index := index, checksum := checksum, frame_buffer := fb }
  let dcs := u8 (bnot s.checksum + 1)
  let fb := store s.frame_buffer s.index dcs
  let index := (s.index + 1) % 256
  let fb := store fb index PN532_POSTAMBLE
  let index := (index + 1) % 256
  { frame_buffer := fb, index := index, len := length, lcs := lcs, dcs := dcs }

/-- The C function `NFC_write`: 0 for success, 1 for error. -/
def NFC_write (write_data : Mem) (length : Nat) (w : World) : Outcome × World :=
  let b := NFC_write_build w.frame_buffer write_data length
  let w := I2C_send b.frame_buffer b.index { w with frame_buffer := b.frame_buffer }
  match read_ack w with
  | (Outcome.ret r, w) => if r = 0 then (Outcome.ret 1, w) else (Outcome.ret 0, w)
  | (o, w) => (o, w)


/-! ## Specification-side definitions -/

/-- Frame layout as the specification words it (section 3): preamble, start
marker, `LEN = n + 1`, `LCS = (256 - LEN) mod 256`, direction byte, payload,
`DCS = (256 - (TFI + sum) mod 256) mod 256`, postamble. -/
def frame_spec (tfi : Nat) (P : List Nat) : List Nat :=
  [0x00, 0x00, 0xFF, P.length + 1, (256 - (P.length + 1)) % 256, tfi] ++ P ++
    [(256 - (tfi + P.sum) % 256) % 256, 0x00]

/-- The two-byte start marker `00 FF` sits at offsets `p`, `p + 1` of `m`. -/
def marker_at (m : Mem) (p : Nat) : Prop := m p = 0 ∧ m (p + 1) = 0xFF

instance (m : Mem) (p : Nat) : Decidable (marker_at m p) := by
  unfold marker_at; infer_instance

/-- The write transactions of a log, in order. -/
def sent : List Event → List (List Nat)
  | [] => []
  | Event.write d :: l => d :: sent l
  | Event.read _ :: l => sent l

/-- The read transactions of a log (their byte counts), in order. -/
def received : List Event → List Nat
  | [] => []
  | Event.write _ :: l => received l
  | Event.read c :: l => c :: received l

/-- A world with an all-zero frame buffer, an empty log and the given script. -/
def boot (script : List (List Nat)) : World :=
  { frame_buffer := fun _ => 0, bus_in := script.map arr, log := [] }

/-- The stream the loop of `seek_start` looks at: the two initial values
`0xFF` of `prev` and `current`, then the bytes of the buffer. -/
def seek_view (m : Mem) (buf : Nat) : Nat → Nat :=
  fun j => if j < 2 then 0xFF else m (buf + (j - 2))

/-- The caller's buffer after the copy loop has stored the `n` bytes found at
offset `p` of the frame buffer. -/
def copied (fb : Mem) (p n : Nat) (read_data : Mem) : Mem :=
  fun j => if j < n then fb (p + j) else read_data j

/-- The frame buffer after raw reads of `length` bytes from the streams `ss`,
in order. -/
def raw_reads (length : Nat) (fb : Mem) : List Mem → Mem
  | [] => fb
  | s :: ss => raw_reads length (MSS_I2C_read s length fb) ss

/-- A pass of `NFC_read` from world `w` to world `w2` that rejects the
response before any byte is copied into `read_data`: the length test fails, or
the frame has no data byte (signed length at most 1) and the data test fails. -/
def rejected_without_copy (data_length : Nat) (w w2 : World) : Prop :=
  ∃ p q w1,
    I2C_read ((data_length + PN532_FRAME_HEADER_BYTES) % 256) w = (some p, w1) ∧
    seek_start w1.frame_buffer p = some q ∧ w2 = send_nack w1 ∧
    (i8 (w1.frame_buffer q) + i8 (w1.frame_buffer (q + 1)) ≠ 0 ∨
      (i8 (w1.frame_buffer q) + i8 (w1.frame_buffer (q + 1)) = 0 ∧
        w1.frame_buffer (q + 2) = PN532_PN532TOHOST ∧ i8 (w1.frame_buffer q) ≤ 1 ∧
        i8 (0 + (PN532_PN532TOHOST : Int)) + i8 (w1.frame_buffer (q + 3)) ≠ 0))

/-- A pass of `NFC_read` from world `w` that meets an error frame: start
marker found, length test passed, direction byte `7F`; `w1` is the world after
the receive. -/
def meets_error_frame (data_length : Nat) (w w1 : World) : Prop :=
  ∃ p q,
    I2C_read ((data_length + PN532_FRAME_HEADER_BYTES) % 256) w = (some p, w1) ∧
    seek_start w1.frame_buffer p = some q ∧
    i8 (w1.frame_buffer q) + i8 (w1.frame_buffer (q + 1)) = 0 ∧
    w1.frame_buffer (q + 2) = PN532_ERROR

/-! ## Concrete inputs used below -/

/-- A response whose length byte is `0x81`: 128 data bytes `2B 01 00 ... 00`
follow the direction byte, then the data checksum byte `00`, which is wrong. -/
def long_bad_response : List Nat :=
  [0x01, 0x00, 0x00, 0xFF, 0x81, 0x7F, 0xD5, 0x2B, 0x01] ++ List.replicate 126 0x00 ++
    [0x00, 0x00]

/-- Two responses: a frame `D5 11 22` with a wrong data checksum, then a frame
with `LEN = 0x81` whose first data byte is `2B`. -/
def retry_script : List (List Nat) :=
  [[0x01, 0x00, 0x00, 0xFF, 0x03, 0xFD, 0xD5, 0x11, 0x22, 0x00, 0x00],
   [0x01, 0x00, 0x00, 0xFF, 0x81, 0x7F, 0xD5, 0x2B, 0x33, 0x44]]

/-- A slave that clocks out `01` for every byte, and a frame buffer full of
`01`: no start marker anywhere. -/
def idle_world : World :=
  { frame_buffer := fun _ => 1, bus_in := [fun _ => 1], log := [] }

/-- The world `idle_world` after one raw read of 13 bytes. -/
def idle_world_after : World :=
  { frame_buffer := fun _ => 1, bus_in := [], log := [Event.read 13] }

/-- A response with a wrong length checksum, then an error frame. -/
def lcs_then_error_script : List (List Nat) :=
  [[0x01, 0x00, 0x00, 0xFF, 0x03, 0xFC, 0xD5, 0x11, 0x22, 0x08, 0x00],
   [0x01, 0x00, 0x00, 0xFF, 0x01, 0xFF, 0x7F, 0x81, 0x00]]

/-- The worlds before the first and before the second pass of
`NFC_read(read_data, 2)` on `lcs_then_error_script`. -/
def lcs_then_error_worlds : Nat → World
  | 0 => boot lcs_then_error_script
  | _ + 1 => send_nack (I2C_read ((2 + PN532_FRAME_HEADER_BYTES) % 256)
      (boot lcs_then_error_script)).2

set_option maxRecDepth 100000

/-! ## Lemmas on `seek_start` -/

theorem seek_start_loop_found (m : Mem) :
    ∀ (d fuel : Nat) (s : SeekState) (g : Nat → Nat),
      g 0 = s.prev → g 1 = s.current → (∀ j, g (j + 2) = m (s.buf + j)) →
      d ≤ fuel → s.offset + d ≤ max_offset →
      (∀ j, j < d → ¬ (g j = 0 ∧ g (j + 1) = 0xFF)) →
      (g d = 0 ∧ g (d + 1) = 0xFF) →
      seek_start_loop m fuel s =
        { prev := 0, current := 0xFF, offset := s.offset + d, buf := s.buf + d } := by
  intro d
  induction d with
  | zero =>
    intro fuel s g h0 h1 _ _ _ _ hm
    have hp : s.prev = 0 := by rw [← h0]; exact hm.1
    have hc : s.current = 0xFF := by rw [← h1]; exact hm.2
    cases fuel with
    | zero => cases s; simp_all [seek_start_loop]
    | succ f => cases s; simp_all [seek_start_loop]
  | succ d ih =>
    intro fuel s g h0 h1 h2 hf ho hno hm
    cases fuel with
    | zero => omega
    | succ f =>
      have hnot : ¬ (s.prev = 0 ∧ s.current = 0xFF) := by
        have := hno 0 (by omega)
        rwa [h0, h1] at this
      have hlt : s.offset < max_offset := by omega
      rw [seek_start_loop, if_pos ⟨hlt, hnot⟩]
      rw [ih f _ (fun j => g (j + 1)) h1 (by simpa using h2 0)
        (fun j => by simpa [Nat.add_assoc, Nat.add_comm 1 j] using h2 (j + 1))
        (by omega) (by simp only; omega)
        (fun j hj => hno (j + 1) (by omega)) hm]
      simp only [SeekState.mk.injEq, true_and]
      omega

theorem seek_start_loop_exhaust (m : Mem) :
    ∀ (fuel : Nat) (s : SeekState) (g : Nat → Nat),
      g 0 = s.prev → g 1 = s.current → (∀ j, g (j + 2) = m (s.buf + j)) →
      max_offset ≤ s.offset + fuel → s.offset ≤ max_offset →
      (∀ j, s.offset + j < max_offset → ¬ (g j = 0 ∧ g (j + 1) = 0xFF)) →
      (seek_start_loop m fuel s).offset = max_offset ∧
        (seek_start_loop m fuel s).buf = s.buf + (max_offset - s.offset) := by
  intro fuel
  induction fuel with
  | zero =>
    intro s g _ _ _ hf ho _
    have : s.offset = max_offset := by omega
    simp [seek_start_loop, this]
  | succ f ih =>
    intro s g h0 h1 h2 hf ho hno
    by_cases hlt : s.offset < max_offset
    · have hnot : ¬ (s.prev = 0 ∧ s.current = 0xFF) := by
        have := hno 0 (by omega)
        rwa [h0, h1] at this
      rw [seek_start_loop, if_pos ⟨hlt, hnot⟩]
      have := ih { prev := s.current, current := m s.buf, offset := s.offset + 1, buf := s.buf + 1 }
        (fun j => g (j + 1)) h1 (by simpa using h2 0)
        (fun j => by simpa [Nat.add_assoc, Nat.add_comm 1 j] using h2 (j + 1))
        (by simp only; omega) (by simp only; omega)
        (fun j hj => hno (j + 1) (by simp only at hj; omega))
      refine ⟨this.1, ?_⟩
      rw [this.2]
      simp only
      omega
    · have he : s.offset = max_offset := by omega
      rw [seek_start_loop, if_neg (by omega)]
      simp [he]

/-- Start marker found early enough: if the earliest `00 FF` in the buffer
sits at offsets `i`, `i + 1` with `i + 2 < 263`, then `seek_start` returns the
position just behind it, having read `i + 2` bytes. -/
theorem seek_start_found (m : Mem) (buf i : Nat) (hi : i + 2 < max_offset)
    (hm : marker_at m (buf + i)) (hfirst : ∀ j, j < i → ¬ marker_at m (buf + j)) :
    seek_start m buf = some (buf + i + 2) ∧ (seek_start_final m buf).offset = i + 2 := by
  have h := seek_start_loop_found m (i + 2) max_offset
    { prev := 0xFF, current := 0xFF, offset := 0, buf := buf } (seek_view m buf)
    (by simp [seek_view]) (by simp [seek_view]) (by intro j; simp [seek_view])
    (by omega) (by simp only; omega)
    (by
      intro j hj
      unfold seek_view
      by_cases h0 : j = 0
      · subst h0; simp
      · by_cases h1 : j = 1
        · subst h1; simp
        · have hj2 : ¬ j < 2 := by omega
          have hj3 : ¬ j + 1 < 2 := by omega
          simp only [hj2, hj3, if_false]
          have := hfirst (j - 2) (by omega)
          unfold marker_at at this
          have e : j + 1 - 2 = j - 2 + 1 := by omega
          rw [e, ← Nat.add_assoc]
          exact this)
    (by
      unfold seek_view marker_at at *
      have e1 : ¬ i + 2 < 2 := by omega
      have e2 : ¬ i + 2 + 1 < 2 := by omega
      simp only [e1, e2, if_false]
      have e3 : i + 2 + 1 - 2 = i + 1 := by omega
      rw [e3, Nat.add_sub_cancel, ← Nat.add_assoc]
      exact hm)
  unfold seek_start seek_start_final
  rw [h]
  simp only [Nat.zero_add]
  refine ⟨?_, trivial⟩
  rw [if_pos hi, Nat.add_assoc]

/-- No start marker within the bytes the loop can use: the loop reads
`max_offset` bytes and the assertion fails. -/
theorem seek_start_none (m : Mem) (buf : Nat)
    (hno : ∀ i, i + 1 < max_offset → ¬ marker_at m (buf + i)) :
    (seek_start_final m buf).offset = max_offset ∧
      (seek_start_final m buf).buf = buf + max_offset ∧ seek_start m buf = none := by
  have h := seek_start_loop_exhaust m max_offset
    { prev := 0xFF, current := 0xFF, offset := 0, buf := buf } (seek_view m buf)
    (by simp [seek_view]) (by simp [seek_view]) (by intro j; simp [seek_view])
    (by simp only; omega) (by simp only; omega)
    (by
      intro j hj
      simp only [Nat.zero_add] at hj
      unfold seek_view
      by_cases h0 : j = 0
      · subst h0; simp
      · by_cases h1 : j = 1
        · subst h1; simp
        · have hj2 : ¬ j < 2 := by omega
          have hj3 : ¬ j + 1 < 2 := by omega
          simp only [hj2, hj3, if_false]
          have := hno (j - 2) (by omega)
          unfold marker_at at this
          have e : j + 1 - 2 = j - 2 + 1 := by omega
          rw [e, ← Nat.add_assoc]
          exact this)
  refine ⟨h.1, ?_, ?_⟩
  · have := h.2
    simpa [seek_start_final] using this
  · unfold seek_start
    simp only [seek_start_final]
    rw [if_neg (by rw [h.1]; omega)]

/-! ## Lemmas on byte ranges and on `NFC_write` -/

theorem bytes_zero (m : Mem) (p : Nat) : bytes m p 0 = [] := rfl

theorem bytes_succ (m : Mem) (p k : Nat) : bytes m p (k + 1) = m p :: bytes m (p + 1) k := by
  unfold bytes
  rw [List.range_succ_eq_map]
  simp [List.map_map, Function.comp_def, Nat.add_assoc, Nat.add_comm 1]

theorem bytes_length (m : Mem) (p n : Nat) : (bytes m p n).length = n := by
  simp [bytes]

theorem bytes_arr_cons (a : Nat) (l : List Nat) (p n : Nat) :
    bytes (arr (a :: l)) (p + 1) n = bytes (arr l) p n := by
  unfold bytes arr
  apply List.map_congr_left
  intro i _
  have : p + 1 + i = (p + i) + 1 := by omega
  rw [this]
  simp

theorem bytes_arr (P : List Nat) : bytes (arr P) 0 P.length = P := by
  induction P with
  | nil => rfl
  | cons a l ih =>
    rw [List.length_cons, bytes_succ, bytes_arr_cons, ih]
    simp [arr]

/-- Effect of the payload loop of `NFC_write` on `i`, `index` and `checksum`
when `k` iterations remain. -/
theorem NFC_write_fill_spec (wd : Mem) (length : Nat) :
    ∀ (k fuel : Nat) (s : FillState),
      s.i + k + 1 = length → length ≤ 256 → k ≤ fuel →
      s.index < 256 → s.checksum < 256 →
      (NFC_write_fill wd length fuel s).i = s.i + k ∧
      (NFC_write_fill wd length fuel s).index = (s.index + k) % 256 ∧
      (NFC_write_fill wd length fuel s).checksum
        = (s.checksum + (bytes wd s.i k).sum) % 256 := by
  intro k
  induction k with
  | zero =>
    intro fuel s hk hl _ hi hc
    have hcond : ¬ ((s.i : Int) < (length : Int) - 1) := by omega
    have hs : NFC_write_fill wd length fuel s = s := by
      cases fuel with
      | zero => rfl
      | succ f => rw [NFC_write_fill, if_neg hcond]
    rw [hs, bytes_zero, List.sum_nil]
    exact ⟨rfl, by omega, by omega⟩
  | succ k ih =>
    intro fuel s hk hl hf hi hc
    cases fuel with
    | zero => omega
    | succ f =>
      have hcond : (s.i : Int) < (length : Int) - 1 := by omega
      have hi1 : (s.i + 1) % 256 = s.i + 1 := by omega
      rw [NFC_write_fill, if_pos hcond, hi1]
      have h := ih f
        { i := s.i + 1
          index := (s.index + 1) % 256
          checksum := (s.checksum + wd s.i) % 256
          frame_buffer := store s.frame_buffer s.index (wd s.i) }
        (by simp only; omega) hl (by omega) (by simp only; omega) (by simp only; omega)
      simp only at h
      refine ⟨by rw [h.1]; omega, by rw [h.2.1]; omega, ?_⟩
      rw [h.2.2, bytes_succ, List.sum_cons]
      omega

/-- The field values `NFC_write` computes for a payload of at most 254 bytes,
and the value of `index` when `I2C_send` is called. -/
theorem NFC_write_build_fields (fb : Mem) (P : List Nat) (hn : P.length ≤ 254) :
    (NFC_write_build fb (arr P) P.length).len = P.length + 1 ∧
    (NFC_write_build fb (arr P) P.length).lcs = (256 - (P.length + 1)) % 256 ∧
    (NFC_write_build fb (arr P) P.length).dcs = (256 - (0xD4 + P.sum) % 256) % 256 ∧
    (NFC_write_build fb (arr P) P.length).index = (P.length + 8) % 256 := by
  have hlen : (P.length + 1) % 256 = P.length + 1 := by omega
  have key : ∀ s : FillState, s.i = 0 → s.index = 6 → s.checksum = 0xD4 →
      u8 (bnot ((NFC_write_fill (arr P) (P.length + 1) 256 s).checksum : Int) + 1)
        = (256 - (0xD4 + P.sum) % 256) % 256 ∧
      (((NFC_write_fill (arr P) (P.length + 1) 256 s).index + 1) % 256 + 1) % 256
        = (P.length + 8) % 256 := by
    intro s h1 h2 h3
    have h := NFC_write_fill_spec (arr P) (P.length + 1) P.length 256 s
      (by omega) (by omega) (by omega) (by omega) (by omega)
    rw [h1, bytes_arr, h2, h3] at h
    rw [h.2.1, h.2.2]
    unfold u8 bnot
    omega
  unfold NFC_write_build
  simp only [hlen]
  refine ⟨trivial, ?_, key _ rfl rfl rfl⟩
  unfold u8 bnot
  omega

/-! ## The frame `NFC_write` builds -/

theorem arr_cons_succ (a : Nat) (l : List Nat) (i : Nat) : arr (a :: l) (i + 1) = arr l i := rfl

theorem arr_append_left (l l' : List Nat) (i : Nat) (h : i < l.length) :
    arr (l ++ l') i = arr l i := by
  unfold arr
  rw [List.getD_append _ _ _ _ h]

theorem arr_append_right (l l' : List Nat) (i : Nat) :
    arr (l ++ l') (l.length + i) = arr l' i := by
  unfold arr
  rw [List.getD_append_right _ _ _ _ (by omega)]
  congr 1
  omega

theorem arr_bytes (m : Mem) (p n i : Nat) (h : i < n) : arr (bytes m p n) i = m (p + i) := by
  unfold arr bytes
  rw [List.getD_eq_getElem _ _ (by simpa using h)]
  simp

theorem bytes_congr (m m' : Mem) (p p' n : Nat) (h : ∀ i, i < n → m (p + i) = m' (p' + i)) :
    bytes m p n = bytes m' p' n := by
  unfold bytes
  apply List.map_congr_left
  intro i hi
  exact h i (by simpa using hi)

/-- Where the fields of `frame_spec` sit. -/
theorem frame_spec_layout (t : Nat) (P : List Nat) :
    arr (frame_spec t P) 0 = 0x00 ∧ arr (frame_spec t P) 1 = 0x00 ∧
    arr (frame_spec t P) 2 = 0xFF ∧ arr (frame_spec t P) 3 = P.length + 1 ∧
    arr (frame_spec t P) 4 = (256 - (P.length + 1)) % 256 ∧ arr (frame_spec t P) 5 = t ∧
    (∀ j, j < P.length → arr (frame_spec t P) (6 + j) = arr P j) ∧
    arr (frame_spec t P) (6 + P.length) = (256 - (t + P.sum) % 256) % 256 ∧
    arr (frame_spec t P) (7 + P.length) = 0x00 ∧
    (frame_spec t P).length = P.length + 8 := by
  refine ⟨rfl, rfl, rfl, rfl, rfl, rfl, ?_, ?_, ?_, ?_⟩
  · intro j hj
    unfold frame_spec
    rw [arr_append_left _ _ _ (by simp; omega)]
    exact arr_append_right [0x00, 0x00, 0xFF, P.length + 1, (256 - (P.length + 1)) % 256, t] P j
  · unfold frame_spec
    have h := arr_append_right
      ([0x00, 0x00, 0xFF, P.length + 1, (256 - (P.length + 1)) % 256, t] ++ P)
      [(256 - (t + P.sum) % 256) % 256, 0x00] 0
    simp only [List.length_append, List.length_cons, List.length_nil] at h
    simpa [Nat.add_comm] using h
  · unfold frame_spec
    have h := arr_append_right
      ([0x00, 0x00, 0xFF, P.length + 1, (256 - (P.length + 1)) % 256, t] ++ P)
      [(256 - (t + P.sum) % 256) % 256, 0x00] 1
    simp only [List.length_append, List.length_cons, List.length_nil] at h
    have e : 0 + 1 + 1 + 1 + 1 + 1 + 1 + P.length + 1 = 7 + P.length := by omega
    rw [e] at h
    exact h
  · unfold frame_spec
    simp

/-- Effect of the payload loop of `NFC_write` on the frame buffer while
`index` does not wrap. -/
theorem NFC_write_fill_buffer (wd : Mem) (length : Nat) :
    ∀ (k fuel : Nat) (s : FillState),
      s.i + k + 1 = length → length ≤ 256 → k ≤ fuel → s.index + k < 256 →
      ∀ j, (NFC_write_fill wd length fuel s).frame_buffer j
        = if s.index ≤ j ∧ j < s.index + k then wd (s.i + (j - s.index))
          else s.frame_buffer j := by
  intro k
  induction k with
  | zero =>
    intro fuel s hk hl _ _ j
    have hs : NFC_write_fill wd length fuel s = s := by
      cases fuel with
      | zero => rfl
      | succ f => rw [NFC_write_fill, if_neg (by omega)]
    rw [hs, if_neg (by omega)]
  | succ k ih =>
    intro fuel s hk hl hf hi j
    cases fuel with
    | zero => omega
    | succ f =>
      have hi1 : (s.i + 1) % 256 = s.i + 1 := by omega
      have hx1 : (s.index + 1) % 256 = s.index + 1 := by omega
      rw [NFC_write_fill, if_pos (by omega), hi1, hx1]
      rw [ih f _ (by simp only; omega) hl (by omega) (by simp only; omega) j]
      simp only
      unfold store
      by_cases hj : s.index + 1 ≤ j ∧ j < s.index + 1 + k
      · rw [if_pos hj, if_pos (by omega)]
        congr 1
        omega
      · rw [if_neg hj]
        by_cases hj0 : j = s.index
        · subst hj0
          rw [if_pos rfl, if_pos (by omega)]
          simp
        · rw [if_neg hj0, if_neg (by omega)]

/-- The frame buffer behind the payload loop and the two last stores of
`NFC_write`, for a payload of at most 247 bytes, when the six header bytes are
in place before the loop. -/
theorem NFC_write_tail_bytes (P : List Nat) (hn : P.length ≤ 247) (s : FillState)
    (h1 : s.i = 0) (h2 : s.index = 6) (h3 : s.checksum = 0xD4)
    (hh : ∀ j, j < 6 → s.frame_buffer j = arr (frame_spec 0xD4 P) j)
    (j : Nat) (hj : j < P.length + 8) :
    store (store (NFC_write_fill (arr P) ((P.length + 1) % 256) 256 s).frame_buffer
        (NFC_write_fill (arr P) ((P.length + 1) % 256) 256 s).index
        (u8 (bnot ((NFC_write_fill (arr P) ((P.length + 1) % 256) 256 s).checksum : Int)
          + 1)))
      (((NFC_write_fill (arr P) ((P.length + 1) % 256) 256 s).index + 1) % 256)
      PN532_POSTAMBLE j
    = arr (frame_spec 0xD4 P) j := by
  have hlen : (P.length + 1) % 256 = P.length + 1 := by omega
  have e1 : (6 + P.length) % 256 = 6 + P.length := by omega
  have e2 : (6 + P.length + 1) % 256 = 7 + P.length := by omega
  have h := NFC_write_fill_spec (arr P) (P.length + 1) P.length 256 s
    (by omega) (by omega) (by omega) (by omega) (by omega)
  have hb := NFC_write_fill_buffer (arr P) (P.length + 1) P.length 256 s
    (by omega) (by omega) (by omega) (by omega)
  rw [h1, bytes_arr, h2, h3] at h
  rw [hlen, h.2.1, h.2.2, e1, e2]
  have hd : u8 (bnot (((0xD4 + P.sum) % 256 : Nat) : Int) + 1)
      = (256 - (0xD4 + P.sum) % 256) % 256 := by
    unfold u8 bnot
    omega
  rw [hd]
  clear h hd
  obtain ⟨_, _, _, _, _, _, f6, f7, f8, _⟩ := frame_spec_layout 0xD4 P
  unfold store
  by_cases c1 : j = 7 + P.length
  · rw [if_pos c1, c1, f8]; rfl
  · rw [if_neg c1]
    by_cases c2 : j = 6 + P.length
    · rw [if_pos c2, c2, f7]
    · rw [if_neg c2, hb j, h1, h2]
      by_cases c3 : j < 6
      · rw [if_neg (by omega)]
        exact hh j c3
      · rw [if_pos (by omega)]
        have := f6 (j - 6) (by omega)
        rw [show 6 + (j - 6) = j by omega] at this
        rw [this, Nat.zero_add]

/-- The six header bytes `NFC_write` stores before the payload loop. -/
theorem NFC_write_header_bytes (fb : Mem) (P : List Nat) (hn : P.length ≤ 254)
    (j : Nat) (hj : j < 6) :
    store (store (store (store (store (store fb 0 0x00) 1 0x00) 2 0xFF) 3
      ((P.length + 1) % 256)) 4 (u8 (bnot (((P.length + 1) % 256 : Nat) : Int) + 1)))
      5 0xD4 j = arr (frame_spec 0xD4 P) j := by
  have hlen : (P.length + 1) % 256 = P.length + 1 := by omega
  have hl : u8 (bnot ((P.length + 1 : Nat) : Int) + 1) = (256 - (P.length + 1)) % 256 := by
    unfold u8 bnot
    omega
  have hcases : j = 0 ∨ j = 1 ∨ j = 2 ∨ j = 3 ∨ j = 4 ∨ j = 5 := by omega
  rw [hlen, hl]
  clear hl hlen hn hj
  rcases hcases with h | h | h | h | h | h <;> subst h <;> rfl

/-- For a payload of at most 247 bytes the frame buffer holds, from offset 0,
the frame of the specification with direction byte `D4`, and `index` is its
length. -/
theorem NFC_write_build_frame (fb : Mem) (P : List Nat) (hn : P.length ≤ 247) :
    (NFC_write_build fb (arr P) P.length).index = P.length + 8 ∧
    bytes (NFC_write_build fb (arr P) P.length).frame_buffer 0
      (NFC_write_build fb (arr P) P.length).index = frame_spec 0xD4 P := by
  have hidx2 : (NFC_write_build fb (arr P) P.length).index = P.length + 8 := by
    rw [(NFC_write_build_fields fb P (Nat.le_trans hn (by decide))).2.2.2]
    exact Nat.mod_eq_of_lt (by omega)
  refine ⟨hidx2, ?_⟩
  rw [hidx2, ← bytes_arr (frame_spec 0xD4 P), (frame_spec_layout 0xD4 P).2.2.2.2.2.2.2.2.2]
  apply bytes_congr
  intro j hj
  rw [Nat.zero_add]
  exact NFC_write_tail_bytes P hn
    { i := 0, index := 6, checksum := 0xD4,
      frame_buffer := store (store (store (store (store (store fb 0 0x00) 1 0x00) 2 0xFF) 3
        ((P.length + 1) % 256)) 4 (u8 (bnot (((P.length + 1) % 256 : Nat) : Int) + 1)))
        5 0xD4 }
    rfl rfl rfl (NFC_write_header_bytes fb P (Nat.le_trans hn (by decide))) j hj

/-! ## Lemmas on the transport and on the loop of `NFC_read` -/

theorem sent_append (l1 l2 : List Event) : sent (l1 ++ l2) = sent l1 ++ sent l2 := by
  induction l1 with
  | nil => rfl
  | cons e l ih =>
    cases e with
    | write d => simp [sent, ih]
    | read c => simp [sent, ih]

theorem received_append (l1 l2 : List Event) :
    received (l1 ++ l2) = received l1 ++ received l2 := by
  induction l1 with
  | nil => rfl
  | cons e l ih =>
    cases e with
    | write d => simp [received, ih]
    | read c => simp [received, ih]

/-- The raw-read loop sends nothing, and when it ends it has used at least one
element of the script. -/
theorem I2C_read_loop_spec (length : Nat) :
    ∀ (script : List Mem) (w : World) (ok : Bool) (w1 : World),
      I2C_read_loop length script w = (ok, w1) →
      sent w1.log = sent w.log ∧ (ok = true → w1.bus_in.length < script.length) := by
  intro script
  induction script with
  | nil =>
    intro w ok w1 h
    simp only [I2C_read_loop, Prod.mk.injEq] at h
    obtain ⟨h1, h2⟩ := h
    subst h1 h2
    simp
  | cons s rest ih =>
    intro w ok w1 h
    rw [I2C_read_loop] at h
    simp only at h
    split at h
    · obtain ⟨h1, h2⟩ := ih _ _ _ h
      simp only [sent_append, sent, List.append_nil] at h1
      exact ⟨h1, fun hok => by have := h2 hok; simp only [List.length_cons]; omega⟩
    · simp only [Prod.mk.injEq] at h
      obtain ⟨h1, h2⟩ := h
      subst h1 h2
      simp [sent_append, sent]

theorem I2C_read_spec (length : Nat) (w : World) (r : Option Nat) (w1 : World)
    (h : I2C_read length w = (r, w1)) :
    sent w1.log = sent w.log ∧ (r = none ∨ r = some 1) ∧
      (r ≠ none → w1.bus_in.length < w.bus_in.length) := by
  unfold I2C_read at h
  simp only at h
  split at h
  · rename_i w2 heq
    simp only [Prod.mk.injEq] at h
    obtain ⟨h1, h2⟩ := h
    subst h1 h2
    have := I2C_read_loop_spec _ _ _ _ _ heq
    exact ⟨this.1, Or.inr rfl, fun _ => this.2 rfl⟩
  · rename_i w2 heq
    simp only [Prod.mk.injEq] at h
    obtain ⟨h1, h2⟩ := h
    subst h1 h2
    have := I2C_read_loop_spec _ _ _ _ _ heq
    exact ⟨this.1, Or.inl rfl, fun hn => absurd rfl hn⟩

/-- A pass of the loop of `NFC_read` that ends in `continue` has used at least
one element of the script. -/
theorem NFC_read_iter_again_uses_script (read_data : Mem) (data_length : Nat) (w : World)
    (rd1 : Mem) (w1 : World)
    (h : NFC_read_iter read_data data_length w = (Iter.again, rd1, w1)) :
    w1.bus_in.length < w.bus_in.length := by
  unfold NFC_read_iter wait_ready at h
  simp only at h
  split at h
  · simp at h
  · rename_i p w2 heq
    have hs := (I2C_read_spec _ _ _ _ heq).2.2 (by simp)
    split at h
    · simp at h
    · split at h
      · simp only [Prod.mk.injEq, true_and] at h
        rw [← h.2]
        simpa [send_nack, I2C_send] using hs
      · split at h
        · simp at h
        · split at h
          · simp at h
          · split at h
            · simp only [Prod.mk.injEq, true_and] at h
              rw [← h.2]
              simpa [send_nack, I2C_send] using hs
            · simp at h

/-- The fuel handed to the loop by `NFC_read` is never used up: any two
amounts above the length of the script give the same result. -/
theorem NFC_read_loop_fuel_irrelevant (data_length : Nat) :
    ∀ (f1 f2 : Nat) (read_data : Mem) (w : World),
      w.bus_in.length < f1 → w.bus_in.length < f2 →
      NFC_read_loop data_length f1 read_data w = NFC_read_loop data_length f2 read_data w := by
  intro f1
  induction f1 with
  | zero => intro _ _ _ h; omega
  | succ f ih =>
    intro f2 rd w h1 h2
    cases f2 with
    | zero => omega
    | succ g =>
      rw [NFC_read_loop, NFC_read_loop]
      split
      · rename_i rd1 w1 heq
        have hlt := NFC_read_iter_again_uses_script _ _ _ _ _ heq
        exact ih g rd1 w1 (by omega) (by omega)
      · rfl

theorem NFC_read_loop_fuel (data_length fuel : Nat) (read_data : Mem) (w : World)
    (h : w.bus_in.length < fuel) :
    NFC_read_loop data_length fuel read_data w = NFC_read read_data data_length w :=
  NFC_read_loop_fuel_irrelevant data_length fuel _ read_data w h (Nat.lt_succ_self _)

/-- When a pass of the loop ends the call, `NFC_read` ends that way. -/
theorem NFC_read_of_iter_done (read_data : Mem) (data_length : Nat) (w : World)
    (r : Outcome) (rd1 : Mem) (w1 : World)
    (h : NFC_read_iter read_data data_length w = (Iter.done r, rd1, w1)) :
    NFC_read read_data data_length w = ⟨r, rd1, w1⟩ := by
  unfold NFC_read
  rw [NFC_read_loop, h]

/-- When a pass of the loop ends in `continue`, `NFC_read` goes on as a call
in the world that pass has left. -/
theorem NFC_read_of_iter_again (read_data : Mem) (data_length : Nat) (w : World)
    (rd1 : Mem) (w1 : World)
    (h : NFC_read_iter read_data data_length w = (Iter.again, rd1, w1)) :
    NFC_read read_data data_length w = NFC_read rd1 data_length w1 := by
  have hlt := NFC_read_iter_again_uses_script _ _ _ _ _ h
  unfold NFC_read
  rw [NFC_read_loop, h]
  exact NFC_read_loop_fuel_irrelevant data_length _ _ rd1 w1 (by omega) (by omega)

/-! ## One pass of the loop of `NFC_read` -/

theorem i8_add_i8 (a : Int) (b : Int) : i8 (i8 a + b) = i8 (a + b) := by
  unfold i8
  omega

/-- The copy loop of `NFC_read` does nothing when `length - 1 <= i`. -/
theorem NFC_read_copy_none (fb : Mem) (length : Int) (fuel : Nat) (s : CopyState)
    (h : length - 1 ≤ (s.i : Int)) : NFC_read_copy fb length fuel s = s := by
  cases fuel with
  | zero => rfl
  | succ f => rw [NFC_read_copy, if_neg (by omega)]

theorem i8_i8 (a : Int) : i8 (i8 a) = i8 a := by
  unfold i8
  omega

/-- Effect of the copy loop of `NFC_read` when `k` iterations remain. -/
theorem NFC_read_copy_spec (fb : Mem) (length : Int) :
    ∀ (k fuel : Nat) (s : CopyState),
      (s.i : Int) + k = length - 1 → s.i + k < 256 → k ≤ fuel → i8 s.data_sum = s.data_sum →
      (NFC_read_copy fb length fuel s).i = s.i + k ∧
      (NFC_read_copy fb length fuel s).response_pos = s.response_pos + k ∧
      (NFC_read_copy fb length fuel s).data_sum
        = i8 (s.data_sum + ((bytes fb s.response_pos k).sum : Nat)) ∧
      ∀ j, (NFC_read_copy fb length fuel s).read_data j
        = if s.i ≤ j ∧ j < s.i + k then fb (s.response_pos + (j - s.i)) else s.read_data j := by
  intro k
  induction k with
  | zero =>
    intro fuel s hk _ _ hs
    rw [NFC_read_copy_none fb length fuel s (by omega), bytes_zero, List.sum_nil]
    refine ⟨rfl, rfl, by simpa using hs.symm, ?_⟩
    intro j
    rw [if_neg (by omega)]
  | succ k ih =>
    intro fuel s hk hlt hf hs
    cases fuel with
    | zero => omega
    | succ f =>
      have hi1 : (s.i + 1) % 256 = s.i + 1 := by omega
      rw [NFC_read_copy, if_pos (by omega), hi1]
      have h := ih f
        { i := s.i + 1
          read_data := store s.read_data s.i (fb s.response_pos)
          data_sum := i8 (s.data_sum + (fb s.response_pos : Int))
          response_pos := s.response_pos + 1 }
        (by simp only; omega) (by simp only; omega) (by omega) (i8_i8 _)
      simp only at h
      obtain ⟨h1, h2, h3, h4⟩ := h
      refine ⟨by rw [h1]; omega, by rw [h2]; omega, ?_, ?_⟩
      · rw [h3, i8_add_i8, bytes_succ, List.sum_cons]
        congr 1
        push_cast
        omega
      · intro j
        rw [h4 j]
        unfold store
        by_cases hj : s.i + 1 ≤ j ∧ j < s.i + 1 + k
        · rw [if_pos hj, if_pos (by omega)]
          congr 1
          omega
        · rw [if_neg hj]
          by_cases hj0 : j = s.i
          · subst hj0
            rw [if_pos rfl, if_pos (by omega)]
            simp
          · rw [if_neg hj0, if_neg (by omega)]

/-- The signed test `length + length_check` of `NFC_read` in terms of the two
bytes: it passes when they sum to 0 modulo 256, except for `80 80`. -/
theorem length_test_iff (a b : Nat) (ha : a < 256) (hb : b < 256) :
    i8 a + i8 b = 0 ↔ ((a + b) % 256 = 0 ∧ a ≠ 0x80) := by
  unfold i8
  omega

/-- The signed test `data_sum + data_check` of `NFC_read` in terms of the
bytes: it passes when direction byte, data bytes (sum `s`) and checksum byte
`d` sum to 0 modulo 256, except when `d` is `80`. -/
theorem data_test_iff (t s d : Nat) (hd : d < 256) :
    i8 (i8 (0 + (t : Int)) + (s : Nat)) + i8 d = 0 ↔ ((t + s + d) % 256 = 0 ∧ d ≠ 0x80) := by
  unfold i8
  omega

/-- A pass of `NFC_read` whose length test fails: NACK, `continue`. -/
theorem NFC_read_iter_length_fail (read_data : Mem) (data_length : Nat) (w w1 : World)
    (p q : Nat)
    (hread : I2C_read ((data_length + PN532_FRAME_HEADER_BYTES) % 256) w = (some p, w1))
    (hseek : seek_start w1.frame_buffer p = some q)
    (hlen : i8 (w1.frame_buffer q) + i8 (w1.frame_buffer (q + 1)) ≠ 0) :
    NFC_read_iter read_data data_length w = (Iter.again, read_data, send_nack w1) := by
  unfold NFC_read_iter wait_ready
  simp only [hread, hseek]
  rw [if_pos hlen]

/-- A pass of `NFC_read` that meets the error code `7F` as direction byte
returns 0, sends nothing and leaves `read_data` alone. -/
theorem NFC_read_iter_error_frame (read_data : Mem) (data_length : Nat) (w w1 : World)
    (p q : Nat)
    (hread : I2C_read ((data_length + PN532_FRAME_HEADER_BYTES) % 256) w = (some p, w1))
    (hseek : seek_start w1.frame_buffer p = some q)
    (hlen : i8 (w1.frame_buffer q) + i8 (w1.frame_buffer (q + 1)) = 0)
    (htfi : w1.frame_buffer (q + 2) = PN532_ERROR) :
    NFC_read_iter read_data data_length w = (Iter.done (Outcome.ret 0), read_data, w1) := by
  unfold NFC_read_iter wait_ready
  simp only [hread, hseek]
  rw [if_neg (by simpa using hlen), if_pos htfi]

/-- A pass of `NFC_read` that meets a direction byte other than `7F` and `D5`
ends in the failed assertion. -/
theorem NFC_read_iter_bad_direction (read_data : Mem) (data_length : Nat) (w w1 : World)
    (p q : Nat)
    (hread : I2C_read ((data_length + PN532_FRAME_HEADER_BYTES) % 256) w = (some p, w1))
    (hseek : seek_start w1.frame_buffer p = some q)
    (hlen : i8 (w1.frame_buffer q) + i8 (w1.frame_buffer (q + 1)) = 0)
    (h7f : w1.frame_buffer (q + 2) ≠ PN532_ERROR)
    (hd5 : w1.frame_buffer (q + 2) ≠ PN532_PN532TOHOST) :
    NFC_read_iter read_data data_length w = (Iter.done Outcome.assert_fail, read_data, w1) := by
  unfold NFC_read_iter wait_ready
  simp only [hread, hseek]
  rw [if_neg (by simpa using hlen), if_neg h7f, if_pos hd5]

/-- A pass of `NFC_read` over a device-to-host frame with `1 <= LEN <= 127`:
the `LEN - 1` data bytes are copied, then the data test decides between
NACK with `continue` and ACK with return value `LEN - 1`. -/
theorem NFC_read_iter_data (read_data : Mem) (data_length : Nat) (w w1 : World)
    (p q n : Nat)
    (hread : I2C_read ((data_length + PN532_FRAME_HEADER_BYTES) % 256) w = (some p, w1))
    (hseek : seek_start w1.frame_buffer p = some q)
    (hn : w1.frame_buffer q = n + 1) (hn127 : n ≤ 126)
    (hlen : i8 (w1.frame_buffer q) + i8 (w1.frame_buffer (q + 1)) = 0)
    (htfi : w1.frame_buffer (q + 2) = PN532_PN532TOHOST) :
    NFC_read_iter read_data data_length w =
      if i8 (i8 (0 + (PN532_PN532TOHOST : Int)) + ((bytes w1.frame_buffer (q + 3) n).sum : Nat))
          + i8 (w1.frame_buffer (q + 3 + n)) ≠ 0 then
        (Iter.again, copied w1.frame_buffer (q + 3) n read_data, send_nack w1)
      else
        (Iter.done (Outcome.ret n), copied w1.frame_buffer (q + 3) n read_data,
          send_ack w1) := by
  have hL : i8 (w1.frame_buffer q) = (n : Int) + 1 := by
    rw [hn]; unfold i8; push_cast; omega
  have h7f : ¬ w1.frame_buffer (q + 2) = PN532_ERROR := by
    rw [htfi]; decide
  have hc := NFC_read_copy_spec w1.frame_buffer (i8 (w1.frame_buffer q)) n 256
    { i := 0, read_data := read_data,
      data_sum := i8 (0 + (w1.frame_buffer (q + 2) : Int)), response_pos := q + 3 }
    (by rw [hL]; simp) (by simp only; omega) (by omega) (i8_i8 _)
  simp only at hc
  obtain ⟨_, h2, h3, h4⟩ := hc
  have hrd : (NFC_read_copy w1.frame_buffer (i8 (w1.frame_buffer q)) 256
      { i := 0, read_data := read_data,
        data_sum := i8 (0 + (w1.frame_buffer (q + 2) : Int)),
        response_pos := q + 3 }).read_data = copied w1.frame_buffer (q + 3) n read_data := by
    funext j
    rw [h4 j]
    unfold copied
    simp
  have hret : u8 (i8 (w1.frame_buffer q) - 1) = n := by
    rw [hL]; unfold u8; omega
  unfold NFC_read_iter wait_ready
  simp only [hread, hseek]
  rw [if_neg (by simpa using hlen), if_neg h7f, if_neg (by simpa using htfi)]
  simp only [Nat.add_assoc, Nat.reduceAdd] at h2 h3 hrd ⊢
  rw [h2, h3, hrd, hret, htfi]

/-- Round trip below the signed limits: when the slave delivers the ready
byte and then the device-to-host frame for a payload `P` of at most 126 bytes
whose data checksum byte is not `80`, and the raw read is long enough to hold
it, `NFC_read` accepts the frame on the first attempt: one receive, one ACK,
return value `n`, and `P` in `read_data[0..n-1]`. -/
theorem NFC_read_roundtrip (P : List Nat) (read_data : Mem) (data_length : Nat) (w : World)
    (s : Mem) (rest : List Mem)
    (hP : P.length ≤ 126) (hdl : P.length ≤ data_length) (hdl2 : data_length ≤ 247)
    (hdcs : (256 - (0xD5 + P.sum) % 256) % 256 ≠ 0x80)
    (hw : w.bus_in = s :: rest)
    (hs : bytes s 0 (P.length + 9) = 1 :: frame_spec 0xD5 P) :
    (NFC_read read_data data_length w).outcome = Outcome.ret P.length ∧
    bytes (NFC_read read_data data_length w).read_data 0 P.length = P ∧
    (NFC_read read_data data_length w).world.bus_in = rest ∧
    sent (NFC_read read_data data_length w).world.log = sent w.log ++ [pn532_ack] ∧
    received (NFC_read read_data data_length w).world.log
      = received w.log ++ [data_length + 8] := by
  obtain ⟨f0, f1, f2, f3, f4, f5, f6, f7, _, _⟩ := frame_spec_layout 0xD5 P
  -- the bytes of the stream
  have hsi : ∀ i, i < P.length + 9 → s i = arr (1 :: frame_spec 0xD5 P) i := by
    intro i hi
    have := arr_bytes s 0 (P.length + 9) i hi
    rw [hs, Nat.zero_add] at this
    exact this.symm
  -- the receive
  let w1 : World :=
    { frame_buffer := MSS_I2C_read s (data_length + 8) w.frame_buffer
      bus_in := rest
      log := w.log ++ [Event.read (data_length + 8)] }
  have hfb : ∀ i, i < P.length + 8 → w1.frame_buffer i = arr (1 :: frame_spec 0xD5 P) i := by
    intro i hi
    show MSS_I2C_read s (data_length + 8) w.frame_buffer i = _
    unfold MSS_I2C_read
    rw [if_pos (by omega), hsi i (by omega)]
  have hread : I2C_read ((data_length + PN532_FRAME_HEADER_BYTES) % 256) w = (some 1, w1) := by
    have e1 : (data_length + PN532_FRAME_HEADER_BYTES) % 256 = data_length + 7 := by
      unfold PN532_FRAME_HEADER_BYTES; omega
    have e2 : (data_length + 7 + 1) % 256 = data_length + 8 := by omega
    have h0 : MSS_I2C_read s (data_length + 8) w.frame_buffer 0 = 1 := hfb 0 (by omega)
    unfold I2C_read
    simp only [e1, e2, hw, I2C_read_loop, h0, ne_eq, not_true_eq_false, if_false]
  have b1 : w1.frame_buffer 1 = 0x00 := by rw [hfb 1 (by omega), arr_cons_succ, f0]
  have b2 : w1.frame_buffer 2 = 0x00 := by rw [hfb 2 (by omega), arr_cons_succ, f1]
  have b3 : w1.frame_buffer 3 = 0xFF := by rw [hfb 3 (by omega), arr_cons_succ, f2]
  have b4 : w1.frame_buffer 4 = P.length + 1 := by rw [hfb 4 (by omega), arr_cons_succ, f3]
  have b5 : w1.frame_buffer 5 = (256 - (P.length + 1)) % 256 := by
    rw [hfb 5 (by omega), arr_cons_succ, f4]
  have b6 : w1.frame_buffer 6 = 0xD5 := by rw [hfb 6 (by omega), arr_cons_succ, f5]
  have bP : ∀ j, j < P.length → w1.frame_buffer (7 + j) = arr P (0 + j) := by
    intro j hj
    rw [hfb (7 + j) (by omega)]
    have e : 7 + j = (6 + j) + 1 := by omega
    rw [e, arr_cons_succ, f6 j hj, Nat.zero_add]
  have bD : w1.frame_buffer (7 + P.length) = (256 - (0xD5 + P.sum) % 256) % 256 := by
    rw [hfb (7 + P.length) (by omega)]
    have e : 7 + P.length = (6 + P.length) + 1 := by omega
    rw [e, arr_cons_succ, f7]
  have hbytes : bytes w1.frame_buffer 7 P.length = P := by
    rw [bytes_congr _ (arr P) 7 0 P.length bP, bytes_arr]
  -- the start marker
  have hseek : seek_start w1.frame_buffer 1 = some 4 :=
    (seek_start_found w1.frame_buffer 1 1 (by unfold max_offset; omega)
      ⟨b2, b3⟩
      (by
        intro j hj h
        have : j = 0 := by omega
        subst this
        have := h.2
        rw [b2] at this
        omega)).1
  -- the pass through the loop
  have hlen : i8 (w1.frame_buffer 4) + i8 (w1.frame_buffer (4 + 1)) = 0 := by
    rw [b4, b5]; unfold i8; push_cast; omega
  have hiter := NFC_read_iter_data read_data data_length w w1 1 4 P.length hread hseek b4 hP
    hlen b6
  have hpass : ¬ (i8 (i8 (0 + (PN532_PN532TOHOST : Int))
      + ((bytes w1.frame_buffer (4 + 3) P.length).sum : Nat))
      + i8 (w1.frame_buffer (4 + 3 + P.length)) ≠ 0) := by
    rw [not_not, hbytes, bD]
    exact (data_test_iff PN532_PN532TOHOST P.sum _ (by omega)).2
      ⟨by unfold PN532_PN532TOHOST; omega, hdcs⟩
  rw [if_neg hpass] at hiter
  rw [NFC_read_of_iter_done _ _ _ _ _ _ hiter]
  refine ⟨rfl, ?_, rfl, ?_, ?_⟩
  · show bytes (copied w1.frame_buffer (4 + 3) P.length read_data) 0 P.length = P
    rw [bytes_congr _ (arr P) 0 0 P.length (by
      intro i hi
      unfold copied
      rw [Nat.zero_add, if_pos hi]
      have := bP i hi
      rw [Nat.zero_add] at this
      exact this), bytes_arr]
  · show sent (w.log ++ [Event.read (data_length + 8)] ++ [Event.write (bytes (arr pn532_ack) 0 6)])
      = _
    rw [sent_append, sent_append]
    have e : bytes (arr pn532_ack) 0 6 = pn532_ack := by decide
    simp [sent, e]
  · show received (w.log ++ [Event.read (data_length + 8)]
      ++ [Event.write (bytes (arr pn532_ack) 0 6)]) = _
    rw [received_append, received_append]
    simp [received]

/-! ## Write confirmation and the retry loop -/

/-- Comparing with the ACK constant, `strncmp` looks at one byte only: the
constant starts with a null byte. -/
theorem strncmp_ack (m : Mem) (p : Nat) : 0 = strncmp m p (arr pn532_ack) 0 6 ↔ m p = 0 := by
  have h0 : arr pn532_ack 0 = 0 := rfl
  rw [strncmp, h0]
  by_cases h : m p = 0
  · simp [h]
  · simp only [ne_eq, h, not_false_eq_true, if_true, iff_false]
    omega

/-- A raw read whose first byte comes out as 1 ends `I2C_read` at once. -/
theorem I2C_read_ready (length : Nat) (w : World) (s : Mem) (rest : List Mem)
    (hw : w.bus_in = s :: rest)
    (h1 : MSS_I2C_read s ((length + 1) % 256) w.frame_buffer 0 = 1) :
    I2C_read length w = (some 1,
      { frame_buffer := MSS_I2C_read s ((length + 1) % 256) w.frame_buffer
        bus_in := rest
        log := w.log ++ [Event.read ((length + 1) % 256)] }) := by
  unfold I2C_read
  simp only [hw, I2C_read_loop, h1, ne_eq, not_true_eq_false, if_false]

/-- Return value of `NFC_write` when the slave answers the first raw read with
the ready byte: 0 exactly when the byte behind the ready byte is `00`. -/
theorem NFC_write_return (wd : Mem) (length : Nat) (w : World) (s : Mem) (rest : List Mem)
    (hw : w.bus_in = s :: rest) (hs : s 0 = 1) :
    (NFC_write wd length w).1 = Outcome.ret (if s 1 = 0 then 0 else 1) := by
  unfold NFC_write read_ack wait_ready
  simp only
  generalize hw1 : I2C_send (NFC_write_build w.frame_buffer wd length).frame_buffer
    (NFC_write_build w.frame_buffer wd length).index
    { w with frame_buffer := (NFC_write_build w.frame_buffer wd length).frame_buffer } = w1
  have hb : w1.bus_in = s :: rest := by rw [← hw1]; exact hw
  have hr := I2C_read_ready PN532_ACK_LENGTH w1 s rest hb (by
    unfold MSS_I2C_read PN532_ACK_LENGTH
    rw [if_pos (by omega), hs])
  rw [hr]
  simp only
  have hf : MSS_I2C_read s ((PN532_ACK_LENGTH + 1) % 256) w1.frame_buffer 1 = s 1 := by
    unfold MSS_I2C_read PN532_ACK_LENGTH
    rw [if_pos (by omega)]
  have hcmp : (0 = strncmp (MSS_I2C_read s ((PN532_ACK_LENGTH + 1) % 256) w1.frame_buffer) 1
      (arr pn532_ack) 0 6) ↔ s 1 = 0 := by
    rw [strncmp_ack, hf]
  simp only [hcmp]
  by_cases h : s 1 = 0
  · simp [h]
  · simp [h]

/-- A pass of the loop of `NFC_read` that ends in `continue` has sent the NACK
handshake and nothing else. -/
theorem NFC_read_iter_again_sent (read_data : Mem) (data_length : Nat) (w : World)
    (rd1 : Mem) (w1 : World)
    (h : NFC_read_iter read_data data_length w = (Iter.again, rd1, w1)) :
    sent w1.log = sent w.log ++ [pn532_nack] := by
  have e : bytes (arr pn532_nack) 0 6 = pn532_nack := by decide
  unfold NFC_read_iter wait_ready at h
  simp only at h
  split at h
  · simp at h
  · rename_i p w2 heq
    have hs := (I2C_read_spec _ _ _ _ heq).1
    split at h
    · simp at h
    · split at h
      · simp only [Prod.mk.injEq, true_and] at h
        rw [← h.2]
        simp [send_nack, I2C_send, sent_append, sent, hs, e]
      · split at h
        · simp at h
        · split at h
          · simp at h
          · split at h
            · simp only [Prod.mk.injEq, true_and] at h
              rw [← h.2]
              simp [send_nack, I2C_send, sent_append, sent, hs, e]
            · simp at h

/-- What `NFC_write` hands to the transport: for a payload of at most 247
bytes it is the frame of the specification, and nothing else is sent. -/
theorem NFC_write_sends_frame (P : List Nat) (w : World) (hn : P.length ≤ 247) :
    sent (NFC_write (arr P) P.length w).2.log = sent w.log ++ [frame_spec 0xD4 P] := by
  obtain ⟨_, hframe⟩ := NFC_write_build_frame w.frame_buffer P hn
  unfold NFC_write read_ack wait_ready
  simp only
  generalize hw1 : I2C_send (NFC_write_build w.frame_buffer (arr P) P.length).frame_buffer
    (NFC_write_build w.frame_buffer (arr P) P.length).index
    { w with frame_buffer := (NFC_write_build w.frame_buffer (arr P) P.length).frame_buffer }
    = w1
  have hs1 : sent w1.log = sent w.log ++ [frame_spec 0xD4 P] := by
    rw [← hw1]
    unfold I2C_send
    simp only [sent_append, sent, hframe]
  cases hr : I2C_read PN532_ACK_LENGTH w1 with
  | mk r w2 =>
    have h2 := (I2C_read_spec _ _ _ _ hr).1
    cases r with
    | none => simp only [h2, hs1]
    | some p =>
      simp only
      split <;> simp [h2, hs1]

/-- Retry loop of `NFC_read`: after `k` passes that end in `continue` and one
pass that ends the call, `NFC_read` ends the way the last pass does, and up to
the last pass exactly `k` NACK handshakes have been sent. -/
theorem NFC_read_retry_trace (data_length : Nat) (r : Outcome) (rd1 : Mem) (w1 : World) :
    ∀ (k : Nat) (rds : Nat → Mem) (ws : Nat → World),
      (∀ i, i < k →
        NFC_read_iter (rds i) data_length (ws i) = (Iter.again, rds (i + 1), ws (i + 1))) →
      NFC_read_iter (rds k) data_length (ws k) = (Iter.done r, rd1, w1) →
      NFC_read (rds 0) data_length (ws 0) = ⟨r, rd1, w1⟩ ∧
      sent (ws k).log = sent (ws 0).log ++ List.replicate k pn532_nack := by
  intro k
  induction k with
  | zero =>
    intro rds ws _ hlast
    exact ⟨NFC_read_of_iter_done _ _ _ _ _ _ hlast, by simp⟩
  | succ k ih =>
    intro rds ws hagain hlast
    have h0 := hagain 0 (by omega)
    have := ih (fun i => rds (i + 1)) (fun i => ws (i + 1))
      (fun i hi => hagain (i + 1) (by omega)) hlast
    simp only [Nat.zero_add] at this h0
    refine ⟨by rw [NFC_read_of_iter_again _ _ _ _ _ h0]; exact this.1, ?_⟩
    rw [this.2, NFC_read_iter_again_sent _ _ _ _ _ h0, List.append_assoc]
    rfl

/-! ## Further lemmas: positions returned by `seek_start`, frames without data, raw reads -/

/-- No start marker whose `FF` is among the first 262 bytes: the assertion of
`seek_start` fails. -/
theorem seek_start_none_of_window (m : Mem) (buf : Nat)
    (hno : ∀ i, i + 2 < max_offset → ¬ marker_at m (buf + i)) :
    seek_start m buf = none := by
  have h := seek_start_loop_exhaust m max_offset
    { prev := 0xFF, current := 0xFF, offset := 0, buf := buf } (seek_view m buf)
    (by simp [seek_view]) (by simp [seek_view]) (by intro j; simp [seek_view])
    (by simp only; omega) (by simp only; omega)
    (by
      intro j hj
      simp only [Nat.zero_add] at hj
      unfold seek_view
      by_cases h0 : j = 0
      · subst h0; simp
      · by_cases h1 : j = 1
        · subst h1; simp
        · have hj2 : ¬ j < 2 := by omega
          have hj3 : ¬ j + 1 < 2 := by omega
          simp only [hj2, hj3, if_false]
          have := hno (j - 2) (by omega)
          unfold marker_at at this
          have e : j + 1 - 2 = j - 2 + 1 := by omega
          rw [e, ← Nat.add_assoc]
          exact this)
  unfold seek_start
  simp only [seek_start_final]
  rw [if_neg (by rw [h.1]; omega)]

/-- A position returned by `seek_start` lies just behind a start marker, at
least two bytes behind the start of the buffer. -/
theorem seek_start_some (m : Mem) (buf q : Nat) (h : seek_start m buf = some q) :
    ∃ i, i + 2 < max_offset ∧ q = buf + i + 2 ∧ marker_at m (buf + i) := by
  by_cases hex : ∃ i, i + 2 < max_offset ∧ marker_at m (buf + i)
  · have hmin := Nat.find_spec hex
    have hfirst : ∀ j, j < Nat.find hex → ¬ marker_at m (buf + j) := by
      intro j hj hm
      exact Nat.find_min hex hj ⟨by omega, hm⟩
    have hf := (seek_start_found m buf (Nat.find hex) hmin.1 hmin.2 hfirst).1
    rw [hf] at h
    exact ⟨Nat.find hex, hmin.1, by injection h with h; exact h.symm, hmin.2⟩
  · have hno : ∀ i, i + 2 < max_offset → ¬ marker_at m (buf + i) :=
      fun i hi hm => hex ⟨i, hi, hm⟩
    rw [seek_start_none_of_window m buf hno] at h
    exact absurd h (by simp)

/-- A pass of `NFC_read` over a device-to-host frame whose signed length is at
most 1: nothing is copied, the byte behind the direction byte is taken as the
data checksum. -/
theorem NFC_read_iter_no_data (read_data : Mem) (data_length : Nat) (w w1 : World)
    (p q : Nat)
    (hread : I2C_read ((data_length + PN532_FRAME_HEADER_BYTES) % 256) w = (some p, w1))
    (hseek : seek_start w1.frame_buffer p = some q)
    (hn : i8 (w1.frame_buffer q) ≤ 1)
    (hlen : i8 (w1.frame_buffer q) + i8 (w1.frame_buffer (q + 1)) = 0)
    (htfi : w1.frame_buffer (q + 2) = PN532_PN532TOHOST) :
    NFC_read_iter read_data data_length w =
      if i8 (0 + (PN532_PN532TOHOST : Int)) + i8 (w1.frame_buffer (q + 3)) ≠ 0 then
        (Iter.again, read_data, send_nack w1)
      else
        (Iter.done (Outcome.ret (u8 (i8 (w1.frame_buffer q) - 1))), read_data, send_ack w1) := by
  have h7f : ¬ w1.frame_buffer (q + 2) = PN532_ERROR := by
    rw [htfi]; decide
  have hc := NFC_read_copy_none w1.frame_buffer (i8 (w1.frame_buffer q)) 256
    { i := 0, read_data := read_data,
      data_sum := i8 (0 + (w1.frame_buffer (q + 2) : Int)), response_pos := q + 3 }
    (by simp only; omega)
  unfold NFC_read_iter wait_ready
  simp only [hread, hseek]
  rw [if_neg (by simpa using hlen), if_neg h7f, if_neg (by simpa using htfi)]
  simp only [Nat.add_assoc, Nat.reduceAdd] at hc ⊢
  rw [hc, htfi]

/-- The value returned by a pass of `NFC_read` that ends with a device-to-host
frame is `length - 1` as `uint8_t`, and the pass has sent the ACK. -/
theorem NFC_read_iter_accept_value (read_data : Mem) (data_length : Nat) (w w1 : World)
    (p q v : Nat) (rd1 : Mem) (w2 : World)
    (hread : I2C_read ((data_length + PN532_FRAME_HEADER_BYTES) % 256) w = (some p, w1))
    (hseek : seek_start w1.frame_buffer p = some q)
    (htfi : w1.frame_buffer (q + 2) = PN532_PN532TOHOST)
    (hacc : NFC_read_iter read_data data_length w = (Iter.done (Outcome.ret v), rd1, w2)) :
    v = u8 (i8 (w1.frame_buffer q) - 1) ∧ w2 = send_ack w1 ∧
      i8 (w1.frame_buffer q) + i8 (w1.frame_buffer (q + 1)) = 0 := by
  have h7f : ¬ w1.frame_buffer (q + 2) = PN532_ERROR := by
    rw [htfi]; decide
  unfold NFC_read_iter wait_ready at hacc
  simp only [hread, hseek, Nat.add_assoc, Nat.reduceAdd, htfi, ne_eq, not_true_eq_false,
    if_false] at hacc
  have h7f' : ¬ PN532_PN532TOHOST = PN532_ERROR := by decide
  simp only [h7f', if_false] at hacc
  split at hacc
  · simp at hacc
  · rename_i hl
    split at hacc
    · simp at hacc
    · simp only [Prod.mk.injEq, Iter.done.injEq, Outcome.ret.injEq] at hacc
      exact ⟨hacc.1.symm, hacc.2.2.symm, by simpa using hl⟩

/-- The leading byte of the result of a raw read does not depend on earlier
raw reads of the same length. -/
theorem MSS_I2C_read_lead (t t0 : Mem) (length : Nat) (fb : Mem) :
    MSS_I2C_read t length (MSS_I2C_read t0 length fb) 0 = MSS_I2C_read t length fb 0 := by
  unfold MSS_I2C_read
  by_cases h : 0 < length
  · rw [if_pos h, if_pos h]
  · rw [if_neg h, if_neg h, if_neg h]

/-- The raw-read loop of `I2C_read`: after `m` results whose leading byte is
not 1 and one whose leading byte is 1 it has done `m + 1` raw reads. -/
theorem I2C_read_loop_retry (length : Nat) (s : Mem) (rest : List Mem) :
    ∀ (ss : List Mem) (w : World),
      (∀ t, t ∈ ss → MSS_I2C_read t length w.frame_buffer 0 ≠ 1) →
      MSS_I2C_read s length w.frame_buffer 0 = 1 →
      I2C_read_loop length (ss ++ s :: rest) w = (true,
        { frame_buffer := MSS_I2C_read s length (raw_reads length w.frame_buffer ss)
          bus_in := rest
          log := w.log ++ List.replicate (ss.length + 1) (Event.read length) }) := by
  intro ss
  induction ss with
  | nil =>
    intro w _ hs
    simp only [List.nil_append, I2C_read_loop, hs, ne_eq, not_true_eq_false, if_false,
      raw_reads, List.length_nil, Nat.zero_add, List.replicate_one]
  | cons t ss ih =>
    intro w hss hs
    have ht := hss t (List.mem_cons_self _ _)
    rw [List.cons_append, I2C_read_loop]
    simp only
    rw [if_pos ht]
    rw [ih _ (fun u hu => by
        simp only
        rw [MSS_I2C_read_lead]
        exact hss u (List.mem_cons_of_mem _ hu))
      (by simp only; rw [MSS_I2C_read_lead]; exact hs)]
    simp only [raw_reads, List.length_cons, List.append_assoc, List.singleton_append,
      Prod.mk.injEq, true_and, World.mk.injEq]
    rw [← List.replicate_succ]

/-- Every transaction the raw-read loop adds to the log is a raw read of
`length` bytes. -/
theorem I2C_read_loop_log (length : Nat) :
    ∀ (script : List Mem) (w : World) (ok : Bool) (w1 : World),
      I2C_read_loop length script w = (ok, w1) →
      ∃ j, w1.log = w.log ++ List.replicate j (Event.read length) := by
  intro script
  induction script with
  | nil =>
    intro w ok w1 h
    simp only [I2C_read_loop, Prod.mk.injEq] at h
    exact ⟨0, by rw [← h.2]; simp⟩
  | cons s rest ih =>
    intro w ok w1 h
    rw [I2C_read_loop] at h
    simp only at h
    split at h
    · obtain ⟨j, hj⟩ := ih _ _ _ h
      refine ⟨j + 1, ?_⟩
      rw [hj]
      simp only [List.append_assoc, List.singleton_append, List.replicate_succ]
    · simp only [Prod.mk.injEq] at h
      exact ⟨1, by rw [← h.2]; simp⟩

theorem sent_replicate_read (j c : Nat) : sent (List.replicate j (Event.read c)) = [] := by
  induction j with
  | zero => rfl
  | succ j ih => rw [List.replicate_succ, sent, ih]

theorem received_replicate_read (j c : Nat) :
    received (List.replicate j (Event.read c)) = List.replicate j c := by
  induction j with
  | zero => rfl
  | succ j ih => rw [List.replicate_succ, received, ih, List.replicate_succ]

/-- What `NFC_write` sends, whatever the payload and the answer: the first
`index` bytes of the frame buffer, once. -/
theorem NFC_write_sent (wd : Mem) (length : Nat) (w : World) :
    sent (NFC_write wd length w).2.log = sent w.log ++
      [bytes (NFC_write_build w.frame_buffer wd length).frame_buffer 0
        (NFC_write_build w.frame_buffer wd length).index] := by
  unfold NFC_write read_ack wait_ready
  simp only
  generalize hw1 : I2C_send (NFC_write_build w.frame_buffer wd length).frame_buffer
    (NFC_write_build w.frame_buffer wd length).index
    { w with frame_buffer := (NFC_write_build w.frame_buffer wd length).frame_buffer }
    = w1
  have hs1 : sent w1.log = sent w.log ++
      [bytes (NFC_write_build w.frame_buffer wd length).frame_buffer 0
        (NFC_write_build w.frame_buffer wd length).index] := by
    rw [← hw1]
    unfold I2C_send
    simp only [sent_append, sent]
  cases hr : I2C_read PN532_ACK_LENGTH w1 with
  | mk r w2 =>
    have h2 := (I2C_read_spec _ _ _ _ hr).1
    cases r with
    | none => simp only [h2, hs1]
    | some p =>
      simp only
      split <;> simp [h2, hs1]

/-- A pass that rejects the response before any byte is copied ends in
`continue` with `read_data` as it was. -/
theorem NFC_read_iter_rejected_without_copy (read_data : Mem) (data_length : Nat)
    (w w2 : World) (h : rejected_without_copy data_length w w2) :
    NFC_read_iter read_data data_length w = (Iter.again, read_data, w2) := by
  obtain ⟨p, q, w1, hread, hseek, hw2, hcase⟩ := h
  rw [hw2]
  rcases hcase with hl | ⟨hl, htfi, hn, hd⟩
  · exact NFC_read_iter_length_fail _ _ _ _ _ _ hread hseek hl
  · rw [NFC_read_iter_no_data _ _ _ _ _ _ hread hseek hn hl htfi, if_pos hd]

/-! ## The result of `NFC_write` depends on the answer only -/

/-- C1 (code defect, 8-bit frame index): for a 248-byte payload (`n + 1 = 249`,
within the one-byte length field) the frame of the specification has 256
bytes, but `index` has wrapped to 0 when `NFC_write` calls `I2C_send`, so an
empty byte sequence is handed to the transport.  For the payload `[0x02]` the
bytes are `00 00 FF 02 FE D4 02 2A 00` as specified. -/
theorem C1_NFC_write_index_wraps_at_248 :
    (List.replicate 248 0).length + 1 ≤ 255 ∧
    (frame_spec 0xD4 (List.replicate 248 0)).length = 248 + 8 ∧
    sent (NFC_write (arr (List.replicate 248 0)) 248 (boot [1 :: pn532_ack])).2.log = [[]] ∧
    sent (NFC_write (arr [0x02]) 1 (boot [1 :: pn532_ack])).2.log =
      [[0x00, 0x00, 0xFF, 0x02, 0xFE, 0xD4, 0x02, 0x2A, 0x00]] := by
  decide

/-- C2 (code defect, signed 8-bit checksum test): the valid device-to-host
frame for the payload `41 00 6A` has `DCS = 0x80`; `NFC_read` does not accept
it but answers every delivery of it with a NACK.  The example frame of the
specification is decoded to `03 32 01 06 07`, length 5. -/
theorem C2_NFC_read_rejects_valid_frame_with_dcs_0x80 :
    frame_spec 0xD5 [0x41, 0x00, 0x6A] =
      [0x00, 0x00, 0xFF, 0x04, 0xFC, 0xD5, 0x41, 0x00, 0x6A, 0x80, 0x00] ∧
    (NFC_read_iter (fun _ => 0) 3 (boot [1 :: frame_spec 0xD5 [0x41, 0x00, 0x6A]])).1
      = Iter.again ∧
    (NFC_read (fun _ => 0) 3 (boot [1 :: frame_spec 0xD5 [0x41, 0x00, 0x6A],
        1 :: frame_spec 0xD5 [0x41, 0x00, 0x6A]])).outcome = Outcome.hang ∧
    sent (NFC_read (fun _ => 0) 3 (boot [1 :: frame_spec 0xD5 [0x41, 0x00, 0x6A],
        1 :: frame_spec 0xD5 [0x41, 0x00, 0x6A]])).world.log = [pn532_nack, pn532_nack] ∧
    (NFC_read (fun _ => 0) 5 (boot [[0x01, 0x00, 0xFF, 0x06, 0xFA, 0xD5, 0x03, 0x32, 0x01,
        0x06, 0x07, 0xE8, 0x00]])).outcome = Outcome.ret 5 ∧
    bytes (NFC_read (fun _ => 0) 5 (boot [[0x01, 0x00, 0xFF, 0x06, 0xFA, 0xD5, 0x03, 0x32,
        0x01, 0x06, 0x07, 0xE8, 0x00]])).read_data 0 5 = [0x03, 0x32, 0x01, 0x06, 0x07] := by
  decide

/-- C3 (code defect, signed 8-bit length): a frame with `LEN = 0x81` whose
data checksum identity fails (the sum is 1 modulo 256) is accepted: `NFC_read`
sends ACK and returns 128, and not one of the 128 data bytes is copied into
`read_data`. -/
theorem C3_NFC_read_accepts_invalid_frame_with_len_0x81 :
    (NFC_read (fun _ => 0xEE) 128 (boot [long_bad_response])).outcome = Outcome.ret 128 ∧
    sent (NFC_read (fun _ => 0xEE) 128 (boot [long_bad_response])).world.log = [pn532_ack] ∧
    bytes (NFC_read (fun _ => 0xEE) 128 (boot [long_bad_response])).world.frame_buffer 1 6
      = [0x00, 0x00, 0xFF, 0x81, 0x7F, 0xD5] ∧
    (0xD5 + (bytes (NFC_read (fun _ => 0xEE) 128
        (boot [long_bad_response])).world.frame_buffer 7 128).sum +
      (NFC_read (fun _ => 0xEE) 128 (boot [long_bad_response])).world.frame_buffer 135) % 256
      = 1 ∧
    bytes (NFC_read (fun _ => 0xEE) 128 (boot [long_bad_response])).read_data 0 128
      = List.replicate 128 0xEE := by
  decide

/-- C4 (code defect, `strncmp` stops at the first null byte): when the six
bytes behind the ready byte are the NACK constant, or any other bytes starting
with `00`, `NFC_write` returns 0 (success); it returns 1 only when the first
of them is not `00`. -/
theorem C4_NFC_write_takes_nack_for_ack :
    (NFC_write (arr [0x02]) 1 (boot [1 :: pn532_nack])).1 = Outcome.ret 0 ∧
    (NFC_write (arr [0x02]) 1 (boot [[0x01, 0x00, 0x12, 0x34, 0x56, 0x78, 0x9A]])).1
      = Outcome.ret 0 ∧
    (NFC_write (arr [0x02]) 1 (boot [1 :: pn532_ack])).1 = Outcome.ret 0 ∧
    (NFC_write (arr [0x02]) 1 (boot [[0x01, 0x01, 0x00, 0xFF, 0x00, 0xFF, 0x00]])).1
      = Outcome.ret 1 := by
  decide

/-- C5 (code defect, signed 8-bit length test): an error frame with
`LEN = LCS = 0x80`, for which `(LEN + LCS) mod 256 = 0`, does not end
`NFC_read` with 0: the signed sum is -256, a NACK is sent and the read is
retried.  The error frame `00 00 FF 01 FF 7F 81 00` ends it with 0 and without
any handshake. -/
theorem C5_NFC_read_nacks_error_frame_with_len_0x80 :
    (0x80 + 0x80) % 256 = 0 ∧
    (NFC_read_iter (fun _ => 0xEE) 1
      (boot [[0x01, 0x00, 0x00, 0xFF, 0x80, 0x80, 0x7F, 0x81, 0x00]])).1 = Iter.again ∧
    sent (NFC_read_iter (fun _ => 0xEE) 1
      (boot [[0x01, 0x00, 0x00, 0xFF, 0x80, 0x80, 0x7F, 0x81, 0x00]])).2.2.log
      = [pn532_nack] ∧
    (NFC_read (fun _ => 0xEE) 1
      (boot [[0x01, 0x00, 0x00, 0xFF, 0x01, 0xFF, 0x7F, 0x81, 0x00]])).outcome
      = Outcome.ret 0 ∧
    sent (NFC_read (fun _ => 0xEE) 1
      (boot [[0x01, 0x00, 0x00, 0xFF, 0x01, 0xFF, 0x7F, 0x81, 0x00]])).world.log = [] := by
  decide

/-- C6 (code defect, signed 8-bit length): one response that fails the data
checksum test, then one that passes both tests but has `LEN = 0x81`.
`NFC_read` performs two receives, sends NACK then ACK and returns 128, but the
bytes in `read_data` are those of the rejected first response, not the
payload `2B 33 44 ...` of the last one. -/
theorem C6_NFC_read_returns_stale_payload :
    received (NFC_read (fun _ => 0xEE) 128 (boot retry_script)).world.log = [136, 136] ∧
    sent (NFC_read (fun _ => 0xEE) 128 (boot retry_script)).world.log
      = [pn532_nack, pn532_ack] ∧
    (NFC_read (fun _ => 0xEE) 128 (boot retry_script)).outcome = Outcome.ret 128 ∧
    bytes (NFC_read (fun _ => 0xEE) 128 (boot retry_script)).world.frame_buffer 7 3
      = [0x2B, 0x33, 0x44] ∧
    bytes (NFC_read (fun _ => 0xEE) 128 (boot retry_script)).read_data 0 3
      = [0x11, 0x22, 0xEE] := by
  decide

/-- C7 (code defect, signed 8-bit length): in the valid device-to-host frame
for the 128-byte payload `2B 00 ... 00` (`LEN = 0x81`, `DCS = 00`) the data
checksum byte is changed to `55`; `NFC_read` accepts the corrupted frame with
an ACK and returns 128. -/
theorem C7_NFC_read_accepts_corrupted_dcs :
    (frame_spec 0xD5 (0x2B :: List.replicate 127 0)).take 6
      = [0x00, 0x00, 0xFF, 0x81, 0x7F, 0xD5] ∧
    (frame_spec 0xD5 (0x2B :: List.replicate 127 0)).getD 134 0xFF = 0x00 ∧
    (NFC_read (fun _ => 0xEE) 128
      (boot [1 :: (frame_spec 0xD5 (0x2B :: List.replicate 127 0)).set 134 0x55])).outcome
      = Outcome.ret 128 ∧
    sent (NFC_read (fun _ => 0xEE) 128
      (boot [1 :: (frame_spec 0xD5 (0x2B :: List.replicate 127 0)).set 134 0x55])).world.log
      = [pn532_ack] := by
  decide

/-- C8 (as stated it fails): for a 255-byte payload of bytes `01` the
incremented length wraps to 0, the payload loop does not run, and the data
checksum byte that is computed and sent is `2C`: with it the sum
`0xD4 + 255 + 0x2C` is 255 modulo 256, not 0. -/
theorem C8_dcs_identity_fails_for_255_bytes :
    (List.replicate 255 0x01).length = 255 ∧
    (NFC_write_build (fun _ => 0) (arr (List.replicate 255 0x01)) 255).dcs = 0x2C ∧
    (0xD4 + (List.replicate 255 0x01).sum +
      (NFC_write_build (fun _ => 0) (arr (List.replicate 255 0x01)) 255).dcs) % 256 ≠ 0 ∧
    sent (NFC_write (arr (List.replicate 255 0x01)) 255 (boot [1 :: pn532_ack])).2.log
      = [[0x00, 0x00, 0xFF, 0x00, 0x00, 0xD4, 0x2C, 0x00]] := by
  decide

/-- C8 (amended): for every payload passed to `NFC_write`, the length byte
`LEN` and the length checksum byte `LCS` it computes satisfy
`(LEN + LCS) mod 256 = 0`; and for every payload `P` of at most 254 bytes,
`LEN = n + 1` and the data checksum byte `DCS` it computes satisfies
`(0xD4 + sum of P + DCS) mod 256 = 0`. -/
theorem C8_encoder_checksum_identities (fb : Mem) (P : List Nat) :
    ((NFC_write_build fb (arr P) P.length).len +
      (NFC_write_build fb (arr P) P.length).lcs) % 256 = 0 ∧
    (P.length ≤ 254 →
      (NFC_write_build fb (arr P) P.length).len = P.length + 1 ∧
      (0xD4 + P.sum + (NFC_write_build fb (arr P) P.length).dcs) % 256 = 0) := by
  constructor
  · unfold NFC_write_build
    simp only
    unfold u8 bnot
    omega
  · intro hn
    obtain ⟨h1, _, h3, _⟩ := NFC_write_build_fields fb P hn
    rw [h1, h3]
    exact ⟨rfl, by omega⟩

/-- C8 (amended), at the firmware version query `[0x02]`. -/
theorem C8_encoder_checksum_identities_witness :
    [0x02].length ≤ 254 ∧
    ((NFC_write_build (fun _ => 0) (arr [0x02]) [0x02].length).len +
      (NFC_write_build (fun _ => 0) (arr [0x02]) [0x02].length).lcs) % 256 = 0 ∧
    (NFC_write_build (fun _ => 0) (arr [0x02]) [0x02].length).len = [0x02].length + 1 ∧
    (0xD4 + [0x02].sum + (NFC_write_build (fun _ => 0) (arr [0x02]) [0x02].length).dcs) % 256
      = 0 :=
  ⟨by decide, (C8_encoder_checksum_identities (fun _ => 0) [0x02]).1,
    (C8_encoder_checksum_identities (fun _ => 0) [0x02]).2 (by decide)⟩

/-- C9 (as stated it fails): when the earliest `00 FF` occupies the 262nd and
263rd byte of the buffer, inside the first 263 bytes, the loop of `seek_start`
reads all 263 bytes and ends with `offset = 263`, so `offset < max_offset`
fails and no position is returned.  One byte earlier the position behind the
marker is returned. -/
theorem C9_seek_start_misses_marker_at_window_end :
    marker_at (arr (List.replicate 261 0x01 ++ [0x00, 0xFF])) 261 ∧
    seek_start_final (arr (List.replicate 261 0x01 ++ [0x00, 0xFF])) 0
      = { prev := 0x00, current := 0xFF, offset := 263, buf := 263 } ∧
    seek_start (arr (List.replicate 261 0x01 ++ [0x00, 0xFF])) 0 = none ∧
    seek_start (arr (List.replicate 260 0x01 ++ [0x00, 0xFF])) 0 = some 262 := by
  decide

/-- C9 (amended): for every byte buffer in which the start marker `00 FF`
occurs entirely within the first 262 bytes, the window the assertion of
`seek_start` accepts, `seek_start` returns the position immediately after the
`FF` of the earliest occurrence, whatever the bytes in front of it are. -/
theorem C9_seek_start_skips_leading_noise (m : Mem) (buf : Nat)
    (hex : ∃ i, i + 2 ≤ 262 ∧ marker_at m (buf + i)) :
    ∃ i, marker_at m (buf + i) ∧ (∀ j, j < i → ¬ marker_at m (buf + j)) ∧
      seek_start m buf = some (buf + i + 2) := by
  have hex' : ∃ i, i + 2 < max_offset ∧ marker_at m (buf + i) := by
    obtain ⟨i, hi, hm⟩ := hex
    exact ⟨i, by unfold max_offset; omega, hm⟩
  have hmin := Nat.find_spec hex'
  have hfirst : ∀ j, j < Nat.find hex' → ¬ marker_at m (buf + j) := by
    intro j hj hm
    exact Nat.find_min hex' hj ⟨by omega, hm⟩
  exact ⟨Nat.find hex', hmin.2, hfirst,
    (seek_start_found m buf (Nat.find hex') hmin.1 hmin.2 hfirst).1⟩

/-- C9 (amended), at a buffer that starts `FF 00 00 FF`: the earliest marker
sits at offsets 2 and 3. -/
theorem C9_seek_start_skips_leading_noise_witness :
    (∃ i, i + 2 ≤ 262 ∧ marker_at (arr [0xFF, 0x00, 0x00, 0xFF, 0x06, 0xFA]) (0 + i)) ∧
    ∃ i, marker_at (arr [0xFF, 0x00, 0x00, 0xFF, 0x06, 0xFA]) (0 + i) ∧
      (∀ j, j < i → ¬ marker_at (arr [0xFF, 0x00, 0x00, 0xFF, 0x06, 0xFA]) (0 + j)) ∧
      seek_start (arr [0xFF, 0x00, 0x00, 0xFF, 0x06, 0xFA]) 0 = some (0 + i + 2) :=
  ⟨⟨2, by decide, by decide⟩,
    C9_seek_start_skips_leading_noise (arr [0xFF, 0x00, 0x00, 0xFF, 0x06, 0xFA]) 0
      ⟨2, by decide, by decide⟩⟩

/-- C10: if the first 263 bytes of the buffer hold no `00 FF`, then
`seek_start` reads 263 bytes (its pointer ends 263 bytes behind the start),
its assertion fails and no position is returned; a pass of `NFC_read` whose
receive left such a buffer ends in the failed assertion with `read_data`
untouched and with nothing sent, and so does `NFC_read` when that response is
the first one. -/
theorem C10_desynchronization_is_fatal (m : Mem) (buf : Nat)
    (hno : ∀ i, i + 1 < 263 → ¬ marker_at m (buf + i)) :
    (seek_start_final m buf).offset = 263 ∧
    (seek_start_final m buf).buf = buf + 263 ∧
    seek_start m buf = none ∧
    ∀ (read_data : Mem) (data_length : Nat) (w w1 : World),
      I2C_read ((data_length + PN532_FRAME_HEADER_BYTES) % 256) w = (some buf, w1) →
      w1.frame_buffer = m →
      NFC_read_iter read_data data_length w = (Iter.done Outcome.assert_fail, read_data, w1) ∧
      NFC_read read_data data_length w = ⟨Outcome.assert_fail, read_data, w1⟩ ∧
      sent w1.log = sent w.log := by
  obtain ⟨h1, h2, h3⟩ := seek_start_none m buf hno
  refine ⟨h1, h2, h3, ?_⟩
  intro rd dl w w1 hread hm
  have hiter : NFC_read_iter rd dl w = (Iter.done Outcome.assert_fail, rd, w1) := by
    unfold NFC_read_iter wait_ready
    simp only [hread, hm, h3]
  exact ⟨hiter, NFC_read_of_iter_done _ _ _ _ _ _ hiter, (I2C_read_spec _ _ _ _ hread).1⟩

/-- C10 at a slave that answers every byte with `01`. -/
theorem C10_desynchronization_is_fatal_witness :
    (∀ i, i + 1 < 263 → ¬ marker_at (fun _ => 1) (1 + i)) ∧
    (seek_start_final (fun _ => 1) 1).offset = 263 ∧
    seek_start (fun _ => 1) 1 = none ∧
    NFC_read (fun _ => 0) 5 idle_world = ⟨Outcome.assert_fail, fun _ => 0, idle_world_after⟩ ∧
    sent idle_world_after.log = sent idle_world.log :=
  have hno : ∀ i, i + 1 < 263 → ¬ marker_at (fun _ => 1) (1 + i) := by
    intro i _ h
    simp [marker_at] at h
  have h := C10_desynchronization_is_fatal (fun _ => 1) 1 hno
  have hread : I2C_read ((5 + PN532_FRAME_HEADER_BYTES) % 256) idle_world
      = (some 1, idle_world_after) := by
    have hfb : MSS_I2C_read (fun _ => 1) 13 (fun _ => 1) = fun _ => 1 := by
      funext i
      simp [MSS_I2C_read]
    simp [I2C_read, I2C_read_loop, idle_world, idle_world_after, hfb,
      PN532_FRAME_HEADER_BYTES]
  ⟨hno, h.1, h.2.2.1, (h.2.2.2 (fun _ => 0) 5 idle_world idle_world_after hread rfl).2⟩

/-- C12 (as stated it fails): the error frame `00 00 FF 01 FF 7F 81 00` and
the valid device-to-host frame without data bytes `00 00 FF 01 FF D5 2B 00`,
which is accepted with an ACK, both make `NFC_read` return 0. -/
theorem C12_error_and_empty_frame_both_return_0 :
    (NFC_read (fun _ => 0xEE) 1
      (boot [[0x01, 0x00, 0x00, 0xFF, 0x01, 0xFF, 0x7F, 0x81, 0x00]])).outcome
      = Outcome.ret 0 ∧
    frame_spec 0xD5 [] = [0x00, 0x00, 0xFF, 0x01, 0xFF, 0xD5, 0x2B, 0x00] ∧
    (NFC_read (fun _ => 0xEE) 1 (boot [1 :: frame_spec 0xD5 []])).outcome = Outcome.ret 0 ∧
    sent (NFC_read (fun _ => 0xEE) 1 (boot [1 :: frame_spec 0xD5 []])).world.log
      = [pn532_ack] := by
  decide

/-- C12 (amended): a pass of `NFC_read` that ends on an error frame returns 0,
and a pass that accepts a device-to-host frame whose `LEN` byte is not 1 (a
frame with at least one data byte) returns a value different from 0. -/
theorem C12_error_result_differs_from_accepted (read_data : Mem) (data_length : Nat)
    (w w1 : World) (p q v : Nat) (rd1 : Mem) (w2 : World)
    (hread : I2C_read ((data_length + PN532_FRAME_HEADER_BYTES) % 256) w = (some p, w1))
    (hseek : seek_start w1.frame_buffer p = some q)
    (hbyte : w1.frame_buffer q < 256) (hlen1 : w1.frame_buffer q ≠ 1)
    (htfi : w1.frame_buffer (q + 2) = PN532_PN532TOHOST)
    (hacc : NFC_read_iter read_data data_length w = (Iter.done (Outcome.ret v), rd1, w2)) :
    Outcome.ret v ≠ Outcome.ret 0 ∧
    ∀ (rd' : Mem) (dl' : Nat) (w' w1' : World) (p' q' : Nat),
      I2C_read ((dl' + PN532_FRAME_HEADER_BYTES) % 256) w' = (some p', w1') →
      seek_start w1'.frame_buffer p' = some q' →
      i8 (w1'.frame_buffer q') + i8 (w1'.frame_buffer (q' + 1)) = 0 →
      w1'.frame_buffer (q' + 2) = PN532_ERROR →
      NFC_read_iter rd' dl' w' = (Iter.done (Outcome.ret 0), rd', w1') := by
  constructor
  · have hv := (NFC_read_iter_accept_value _ _ _ _ _ _ _ _ _ hread hseek htfi hacc).1
    intro h
    injection h with h
    rw [h] at hv
    unfold u8 i8 at hv
    omega
  · intro rd' dl' w' w1' p' q' h1 h2 h3 h4
    exact NFC_read_iter_error_frame rd' dl' w' w1' p' q' h1 h2 h3 h4

/-- C12 (amended), at the firmware version response of the specification. -/
theorem C12_error_result_differs_from_accepted_witness :
    I2C_read ((5 + PN532_FRAME_HEADER_BYTES) % 256)
        (boot [[0x01, 0x00, 0xFF, 0x06, 0xFA, 0xD5, 0x03, 0x32, 0x01, 0x06, 0x07, 0xE8, 0x00]])
      = (some 1, (I2C_read ((5 + PN532_FRAME_HEADER_BYTES) % 256) (boot [[0x01, 0x00, 0xFF,
          0x06, 0xFA, 0xD5, 0x03, 0x32, 0x01, 0x06, 0x07, 0xE8, 0x00]])).2) ∧
    (NFC_read_iter (fun _ => 0xEE) 5 (boot [[0x01, 0x00, 0xFF, 0x06, 0xFA, 0xD5, 0x03, 0x32,
        0x01, 0x06, 0x07, 0xE8, 0x00]])).1 = Iter.done (Outcome.ret 5) ∧
    Outcome.ret 5 ≠ Outcome.ret 0 :=
  have hread : I2C_read ((5 + PN532_FRAME_HEADER_BYTES) % 256)
        (boot [[0x01, 0x00, 0xFF, 0x06, 0xFA, 0xD5, 0x03, 0x32, 0x01, 0x06, 0x07, 0xE8, 0x00]])
      = (some 1, (I2C_read ((5 + PN532_FRAME_HEADER_BYTES) % 256) (boot [[0x01, 0x00, 0xFF,
          0x06, 0xFA, 0xD5, 0x03, 0x32, 0x01, 0x06, 0x07, 0xE8, 0x00]])).2) :=
    Prod.ext (by decide) rfl
  have hiter : (NFC_read_iter (fun _ => 0xEE) 5 (boot [[0x01, 0x00, 0xFF, 0x06, 0xFA, 0xD5,
      0x03, 0x32, 0x01, 0x06, 0x07, 0xE8, 0x00]])).1 = Iter.done (Outcome.ret 5) := by decide
  ⟨hread, hiter,
    (C12_error_result_differs_from_accepted (fun _ => 0xEE) 5 _ _ 1 3 5 _ _ hread
      (by decide) (by decide) (by decide) (by decide) (Prod.ext hiter rfl)).1⟩

/-- C13 (as stated it fails): a device-to-host frame `D5 11 22` with a wrong
data checksum is rejected with a NACK, then an error frame ends `NFC_read`
with 0; `read_data`, `EE EE EE` before the call, is `11 22 EE` after it. -/
theorem C13_rejected_frame_leaves_bytes_in_read_data :
    (NFC_read (fun _ => 0xEE) 2
      (boot [[0x01, 0x00, 0x00, 0xFF, 0x03, 0xFD, 0xD5, 0x11, 0x22, 0x00, 0x00],
        [0x01, 0x00, 0x00, 0xFF, 0x01, 0xFF, 0x7F, 0x81, 0x00]])).outcome = Outcome.ret 0 ∧
    sent (NFC_read (fun _ => 0xEE) 2
      (boot [[0x01, 0x00, 0x00, 0xFF, 0x03, 0xFD, 0xD5, 0x11, 0x22, 0x00, 0x00],
        [0x01, 0x00, 0x00, 0xFF, 0x01, 0xFF, 0x7F, 0x81, 0x00]])).world.log = [pn532_nack] ∧
    bytes (fun _ => 0xEE) 0 3 = [0xEE, 0xEE, 0xEE] ∧
    bytes (NFC_read (fun _ => 0xEE) 2
      (boot [[0x01, 0x00, 0x00, 0xFF, 0x03, 0xFD, 0xD5, 0x11, 0x22, 0x00, 0x00],
        [0x01, 0x00, 0x00, 0xFF, 0x01, 0xFF, 0x7F, 0x81, 0x00]])).read_data 0 3
      = [0x11, 0x22, 0xEE] := by
  decide

/-- C13 (amended): when every response before the error frame is rejected
before any byte is copied (its length test fails, or it has no data byte and
its data test fails), `NFC_read` ends on the error frame with 0 and with
`read_data` equal to its contents before the call. -/
theorem C13_read_data_unchanged_on_error (read_data : Mem) (data_length k : Nat)
    (ws : Nat → World) (w1 : World)
    (hrej : ∀ i, i < k → rejected_without_copy data_length (ws i) (ws (i + 1)))
    (herr : meets_error_frame data_length (ws k) w1) :
    NFC_read read_data data_length (ws 0) = ⟨Outcome.ret 0, read_data, w1⟩ := by
  obtain ⟨p, q, hread, hseek, hlen, htfi⟩ := herr
  exact (NFC_read_retry_trace data_length (Outcome.ret 0) read_data w1 k (fun _ => read_data) ws
    (fun i hi => NFC_read_iter_rejected_without_copy read_data data_length _ _ (hrej i hi))
    (NFC_read_iter_error_frame read_data data_length (ws k) w1 p q hread hseek hlen htfi)).1

/-- C13 (amended), at a response with a wrong length checksum followed by an
error frame. -/
theorem C13_read_data_unchanged_on_error_witness :
    (∀ i, i < 1 →
      rejected_without_copy 2 (lcs_then_error_worlds i) (lcs_then_error_worlds (i + 1))) ∧
    meets_error_frame 2 (lcs_then_error_worlds 1)
      (I2C_read ((2 + PN532_FRAME_HEADER_BYTES) % 256) (lcs_then_error_worlds 1)).2 ∧
    NFC_read (fun _ => 0xEE) 2 (lcs_then_error_worlds 0) = ⟨Outcome.ret 0, fun _ => 0xEE,
      (I2C_read ((2 + PN532_FRAME_HEADER_BYTES) % 256) (lcs_then_error_worlds 1)).2⟩ :=
  have hrej : ∀ i, i < 1 →
      rejected_without_copy 2 (lcs_then_error_worlds i) (lcs_then_error_worlds (i + 1)) := by
    intro i hi
    have h0 : i = 0 := by omega
    subst h0
    exact ⟨1, 4, (I2C_read ((2 + PN532_FRAME_HEADER_BYTES) % 256)
      (boot lcs_then_error_script)).2, Prod.ext (by decide) rfl, by decide, rfl,
      Or.inl (by decide)⟩
  have herr : meets_error_frame 2 (lcs_then_error_worlds 1)
      (I2C_read ((2 + PN532_FRAME_HEADER_BYTES) % 256) (lcs_then_error_worlds 1)).2 :=
    ⟨1, 4, Prod.ext (by decide) rfl, by decide, by decide, by decide⟩
  ⟨hrej, herr, C13_read_data_unchanged_on_error (fun _ => 0xEE) 2 1 lcs_then_error_worlds _
    hrej herr⟩

/-- C14 (code defect, signed 8-bit length test): a response with
`LEN = LCS = 0x80`, for which `(LEN + LCS) mod 256 = 0`, and direction byte
`D4` does not fail the assertion: the signed sum is -256, a NACK is sent and
the read is retried.  With `LEN = 02`, `LCS = FE` the assertion fails and
nothing is sent. -/
theorem C14_NFC_read_nacks_bad_direction_with_len_0x80 :
    (0x80 + 0x80) % 256 = 0 ∧
    (NFC_read_iter (fun _ => 0xEE) 2
      (boot [[0x01, 0x00, 0x00, 0xFF, 0x80, 0x80, 0xD4, 0x11, 0x22, 0x00]])).1 = Iter.again ∧
    sent (NFC_read_iter (fun _ => 0xEE) 2
      (boot [[0x01, 0x00, 0x00, 0xFF, 0x80, 0x80, 0xD4, 0x11, 0x22, 0x00]])).2.2.log
      = [pn532_nack] ∧
    (NFC_read (fun _ => 0xEE) 2
      (boot [[0x01, 0x00, 0x00, 0xFF, 0x02, 0xFE, 0xD4, 0x11, 0x22, 0x00]])).outcome
      = Outcome.assert_fail ∧
    sent (NFC_read (fun _ => 0xEE) 2
      (boot [[0x01, 0x00, 0x00, 0xFF, 0x02, 0xFE, 0xD4, 0x11, 0x22, 0x00]])).world.log
      = [] := by
  decide

/-- C15 (as stated it fails): with capacity 4 the raw read asks for 12 bytes; a
response `00 FF 06 FA D5 03 32 01 06 07 E8` without a preamble byte fits into
the `4 + 7` bytes behind the ready byte (its last parsed byte, the data
checksum, is the 11th), is accepted, and 5 bytes are written into `read_data`
and 5 is returned. -/
theorem C15_returned_length_exceeds_capacity :
    received (NFC_read (fun _ => 0xEE) 4 (boot [[0x01, 0x00, 0xFF, 0x06, 0xFA, 0xD5, 0x03,
      0x32, 0x01, 0x06, 0x07, 0xE8]])).world.log = [4 + 8] ∧
    bytes (NFC_read (fun _ => 0xEE) 4 (boot [[0x01, 0x00, 0xFF, 0x06, 0xFA, 0xD5, 0x03,
      0x32, 0x01, 0x06, 0x07, 0xE8]])).world.frame_buffer 1 (4 + 7)
      = [0x00, 0xFF, 0x06, 0xFA, 0xD5, 0x03, 0x32, 0x01, 0x06, 0x07, 0xE8] ∧
    (NFC_read (fun _ => 0xEE) 4 (boot [[0x01, 0x00, 0xFF, 0x06, 0xFA, 0xD5, 0x03, 0x32,
      0x01, 0x06, 0x07, 0xE8]])).outcome = Outcome.ret 5 ∧
    sent (NFC_read (fun _ => 0xEE) 4 (boot [[0x01, 0x00, 0xFF, 0x06, 0xFA, 0xD5, 0x03,
      0x32, 0x01, 0x06, 0x07, 0xE8]])).world.log = [pn532_ack] ∧
    bytes (NFC_read (fun _ => 0xEE) 4 (boot [[0x01, 0x00, 0xFF, 0x06, 0xFA, 0xD5, 0x03,
      0x32, 0x01, 0x06, 0x07, 0xE8]])).read_data 0 6
      = [0x03, 0x32, 0x01, 0x06, 0x07, 0xEE] := by
  decide

/-- C15 (amended): `NFC_read` does not compare the length of a frame with the
capacity `c`.  For a response with `1 <= LEN <= 127` that a pass accepts, the
returned value is `LEN - 1`, exactly that many bytes are written into
`read_data`, and when the last byte parsed (the data checksum) lies inside the
`c + 7` bytes behind the ready byte, `LEN - 1` is at most `c + 1`. -/
theorem C15_returned_length_bound (read_data : Mem) (c : Nat) (w w1 : World)
    (p q n v : Nat) (rd1 : Mem) (w2 : World)
    (hread : I2C_read ((c + PN532_FRAME_HEADER_BYTES) % 256) w = (some p, w1))
    (hseek : seek_start w1.frame_buffer p = some q)
    (hn : w1.frame_buffer q = n + 1) (hn127 : n ≤ 126)
    (htfi : w1.frame_buffer (q + 2) = PN532_PN532TOHOST)
    (hacc : NFC_read_iter read_data c w = (Iter.done (Outcome.ret v), rd1, w2))
    (hin : q + 3 + n ≤ c + 7) :
    v = n ∧ rd1 = copied w1.frame_buffer (q + 3) n read_data ∧ n ≤ c + 1 := by
  obtain ⟨hv, _, hlen⟩ := NFC_read_iter_accept_value _ _ _ _ _ _ _ _ _ hread hseek htfi hacc
  have hiter := NFC_read_iter_data read_data c w w1 p q n hread hseek hn hn127 hlen htfi
  rw [hacc] at hiter
  have hp : p = 1 := by
    rcases (I2C_read_spec _ _ _ _ hread).2.1 with h | h
    · exact absurd h (by simp)
    · injection h
  obtain ⟨i, _, hq, _⟩ := seek_start_some _ _ _ hseek
  refine ⟨?_, ?_, by omega⟩
  · rw [hv, hn]
    unfold u8 i8
    omega
  · split at hiter
    · simp at hiter
    · simp only [Prod.mk.injEq] at hiter
      exact hiter.2.1

/-- C15 (amended), at the firmware version response with capacity 5. -/
theorem C15_returned_length_bound_witness :
    I2C_read ((5 + PN532_FRAME_HEADER_BYTES) % 256)
        (boot [[0x01, 0x00, 0xFF, 0x06, 0xFA, 0xD5, 0x03, 0x32, 0x01, 0x06, 0x07, 0xE8, 0x00]])
      = (some 1, (I2C_read ((5 + PN532_FRAME_HEADER_BYTES) % 256) (boot [[0x01, 0x00, 0xFF,
          0x06, 0xFA, 0xD5, 0x03, 0x32, 0x01, 0x06, 0x07, 0xE8, 0x00]])).2) ∧
    (NFC_read_iter (fun _ => 0xEE) 5 (boot [[0x01, 0x00, 0xFF, 0x06, 0xFA, 0xD5, 0x03, 0x32,
        0x01, 0x06, 0x07, 0xE8, 0x00]])).1 = Iter.done (Outcome.ret 5) ∧
    3 + 3 + 5 ≤ 5 + 7 ∧ 5 ≤ 5 + 1 :=
  have hread : I2C_read ((5 + PN532_FRAME_HEADER_BYTES) % 256)
        (boot [[0x01, 0x00, 0xFF, 0x06, 0xFA, 0xD5, 0x03, 0x32, 0x01, 0x06, 0x07, 0xE8, 0x00]])
      = (some 1, (I2C_read ((5 + PN532_FRAME_HEADER_BYTES) % 256) (boot [[0x01, 0x00, 0xFF,
          0x06, 0xFA, 0xD5, 0x03, 0x32, 0x01, 0x06, 0x07, 0xE8, 0x00]])).2) :=
    Prod.ext (by decide) rfl
  have hiter : (NFC_read_iter (fun _ => 0xEE) 5 (boot [[0x01, 0x00, 0xFF, 0x06, 0xFA, 0xD5,
      0x03, 0x32, 0x01, 0x06, 0x07, 0xE8, 0x00]])).1 = Iter.done (Outcome.ret 5) := by decide
  ⟨hread, hiter, by decide,
    (C15_returned_length_bound (fun _ => 0xEE) 5 _ _ 1 3 5 5 _ _ hread
      (by decide) (by decide) (by decide) (by decide) (Prod.ext hiter rfl) (by decide)).2.2⟩

/-- C16 (code defect, 8-bit length parameter of `I2C_read`): for capacity 248
the sum `248 + 7 + 1` wraps to 0 and every raw read asks for 0 bytes, not for
`248 + 8`; for capacity 249 it asks for 1 byte.  For capacity 5 it asks for
`5 + 8` bytes, and parsing starts at offset 1 of the frame buffer. -/
theorem C16_raw_read_size_wraps_at_248 :
    received (NFC_read (fun _ => 0xEE) 248 (boot [[0x01, 0x00, 0x00, 0xFF],
      [0x01, 0x00, 0x00, 0xFF]])).world.log = [0, 0] ∧
    received (NFC_read (fun _ => 0xEE) 249 (boot [[0x01, 0x00, 0x00, 0xFF],
      [0x01, 0x00, 0x00, 0xFF]])).world.log = [1] ∧
    received (NFC_read (fun _ => 0xEE) 5 (boot [[0x01, 0x00, 0xFF, 0x06, 0xFA, 0xD5, 0x03,
      0x32, 0x01, 0x06, 0x07, 0xE8, 0x00]])).world.log = [5 + 8] ∧
    (I2C_read ((5 + PN532_FRAME_HEADER_BYTES) % 256) (boot [[0x01, 0x00, 0xFF, 0x06, 0xFA,
      0xD5, 0x03, 0x32, 0x01, 0x06, 0x07, 0xE8, 0x00]])).1 = some 1 := by
  decide

/-- C17: when the first `m` raw reads leave a leading byte other than 1 in the
frame buffer and the next one leaves 1 there, `I2C_read` does exactly `m + 1`
raw reads and no other bus transaction, and returns the pointer to offset 1 of
the frame buffer, which holds the bytes of the last raw read. -/
theorem C17_I2C_read_retries_until_ready (length : Nat) (w : World) (ss : List Mem) (s : Mem)
    (rest : List Mem) (hw : w.bus_in = ss ++ s :: rest)
    (hss : ∀ t, t ∈ ss → MSS_I2C_read t ((length + 1) % 256) w.frame_buffer 0 ≠ 1)
    (hs : MSS_I2C_read s ((length + 1) % 256) w.frame_buffer 0 = 1) :
    (I2C_read length w).1 = some 1 ∧
    (I2C_read length w).2.log
      = w.log ++ List.replicate (ss.length + 1) (Event.read ((length + 1) % 256)) ∧
    sent (I2C_read length w).2.log = sent w.log ∧
    (I2C_read length w).2.bus_in = rest ∧
    (∀ i, i < (length + 1) % 256 → (I2C_read length w).2.frame_buffer i = s i) ∧
    bytes (I2C_read length w).2.frame_buffer 1 ((length + 1) % 256 - 1)
      = bytes s 1 ((length + 1) % 256 - 1) := by
  have h := I2C_read_loop_retry ((length + 1) % 256) s rest ss w hss hs
  have hr : I2C_read length w = (some 1,
      { frame_buffer := MSS_I2C_read s ((length + 1) % 256)
          (raw_reads ((length + 1) % 256) w.frame_buffer ss)
        bus_in := rest
        log := w.log ++ List.replicate (ss.length + 1) (Event.read ((length + 1) % 256)) }) := by
    unfold I2C_read
    simp only [hw, h]
  rw [hr]
  refine ⟨rfl, rfl, ?_, rfl, ?_, ?_⟩
  · simp only [sent_append, sent_replicate_read, List.append_nil]
  · intro i hi
    simp only [MSS_I2C_read, if_pos hi]
  · apply bytes_congr
    intro i hi
    simp only [MSS_I2C_read]
    rw [if_pos (by omega)]

/-- C17 at two raw reads that are not ready followed by the ACK handshake. -/
theorem C17_I2C_read_retries_until_ready_witness :
    (boot [[0x00, 0x01, 0x02], [0xFF, 0x03], 1 :: pn532_ack]).bus_in
      = [arr [0x00, 0x01, 0x02], arr [0xFF, 0x03]] ++ arr (1 :: pn532_ack) :: [] ∧
    (I2C_read 6 (boot [[0x00, 0x01, 0x02], [0xFF, 0x03], 1 :: pn532_ack])).1 = some 1 ∧
    (I2C_read 6 (boot [[0x00, 0x01, 0x02], [0xFF, 0x03], 1 :: pn532_ack])).2.log
      = [] ++ List.replicate (2 + 1) (Event.read 7) ∧
    bytes (I2C_read 6 (boot [[0x00, 0x01, 0x02], [0xFF, 0x03], 1 :: pn532_ack])).2.frame_buffer
      1 6 = bytes (arr (1 :: pn532_ack)) 1 6 :=
  have h := C17_I2C_read_retries_until_ready 6
    (boot [[0x00, 0x01, 0x02], [0xFF, 0x03], 1 :: pn532_ack])
    [arr [0x00, 0x01, 0x02], arr [0xFF, 0x03]] (arr (1 :: pn532_ack)) [] rfl
    (by
      intro t ht
      simp only [List.mem_cons, List.mem_singleton, List.not_mem_nil, or_false] at ht
      rcases ht with h | h <;> subst h <;> decide)
    (by decide)
  ⟨rfl, h.1, h.2.1, h.2.2.2.2.2⟩

/-- C18: for a response in which the start marker is found, `LEN = n + 1` is
between 1 and 127 and the direction byte is `D5`, a pass of `NFC_read` accepts
the frame (returns a value) exactly when `(LEN + LCS) mod 256 = 0`,
`(TFI + sum of the LEN-1 data bytes + DCS) mod 256 = 0` and `DCS` is not
`0x80`; it then sends ACK and returns `LEN - 1` with the data bytes copied.
When both identities hold and `DCS` is `0x80`, it sends NACK and retries. -/
theorem C18_exact_acceptance_condition (read_data : Mem) (data_length : Nat) (w w1 : World)
    (p q n : Nat)
    (hread : I2C_read ((data_length + PN532_FRAME_HEADER_BYTES) % 256) w = (some p, w1))
    (hseek : seek_start w1.frame_buffer p = some q)
    (hn : w1.frame_buffer q = n + 1) (hn127 : n ≤ 126)
    (hlcs : w1.frame_buffer (q + 1) < 256) (hdcs : w1.frame_buffer (q + 3 + n) < 256)
    (htfi : w1.frame_buffer (q + 2) = PN532_PN532TOHOST) :
    ((∃ v rd1 w2, NFC_read_iter read_data data_length w = (Iter.done (Outcome.ret v), rd1, w2))
      ↔ ((w1.frame_buffer q + w1.frame_buffer (q + 1)) % 256 = 0 ∧
          (w1.frame_buffer (q + 2) + (bytes w1.frame_buffer (q + 3) n).sum
            + w1.frame_buffer (q + 3 + n)) % 256 = 0 ∧
          w1.frame_buffer (q + 3 + n) ≠ 0x80)) ∧
    ((w1.frame_buffer q + w1.frame_buffer (q + 1)) % 256 = 0 →
      (w1.frame_buffer (q + 2) + (bytes w1.frame_buffer (q + 3) n).sum
        + w1.frame_buffer (q + 3 + n)) % 256 = 0 →
      w1.frame_buffer (q + 3 + n) ≠ 0x80 →
      NFC_read_iter read_data data_length w = (Iter.done (Outcome.ret n),
        copied w1.frame_buffer (q + 3) n read_data, send_ack w1)) ∧
    ((w1.frame_buffer q + w1.frame_buffer (q + 1)) % 256 = 0 →
      (w1.frame_buffer (q + 2) + (bytes w1.frame_buffer (q + 3) n).sum
        + w1.frame_buffer (q + 3 + n)) % 256 = 0 →
      w1.frame_buffer (q + 3 + n) = 0x80 →
      NFC_read_iter read_data data_length w = (Iter.again,
        copied w1.frame_buffer (q + 3) n read_data, send_nack w1)) := by
  have hL := length_test_iff (w1.frame_buffer q) (w1.frame_buffer (q + 1)) (by omega) hlcs
  have hD := data_test_iff PN532_PN532TOHOST (bytes w1.frame_buffer (q + 3) n).sum
    (w1.frame_buffer (q + 3 + n)) hdcs
  have h80 : w1.frame_buffer q ≠ 0x80 := by omega
  rw [htfi]
  by_cases hlen : i8 (w1.frame_buffer q) + i8 (w1.frame_buffer (q + 1)) = 0
  · have hiter := NFC_read_iter_data read_data data_length w w1 p q n hread hseek hn hn127
      hlen htfi
    have hl256 := (hL.1 hlen).1
    by_cases hd : i8 (i8 (0 + (PN532_PN532TOHOST : Int))
        + ((bytes w1.frame_buffer (q + 3) n).sum : Nat)) + i8 (w1.frame_buffer (q + 3 + n)) = 0
    · rw [if_neg (by simpa using hd)] at hiter
      have hc := hD.1 hd
      refine ⟨⟨fun _ => ⟨hl256, hc.1, hc.2⟩, fun _ => ⟨_, _, _, hiter⟩⟩, fun _ _ _ => hiter, ?_⟩
      intro _ _ h
      exact absurd h hc.2
    · rw [if_pos hd] at hiter
      refine ⟨⟨?_, ?_⟩, ?_, ?_⟩
      · rintro ⟨v, rd1, w2, h⟩
        rw [hiter] at h
        simp at h
      · rintro ⟨_, h2, h3⟩
        exact absurd (hD.2 ⟨h2, h3⟩) hd
      · intro _ h2 h3
        exact absurd (hD.2 ⟨h2, h3⟩) hd
      · intro _ _ _
        exact hiter
  · have hiter := NFC_read_iter_length_fail read_data data_length w w1 p q hread hseek hlen
    have hl256 : ¬ (w1.frame_buffer q + w1.frame_buffer (q + 1)) % 256 = 0 :=
      fun h => hlen (hL.2 ⟨h, h80⟩)
    refine ⟨⟨?_, ?_⟩, ?_, ?_⟩
    · rintro ⟨v, rd1, w2, h⟩
      rw [hiter] at h
      simp at h
    · rintro ⟨h1, _, _⟩
      exact absurd h1 hl256
    · intro h1 _ _
      exact absurd h1 hl256
    · intro h1 _ _
      exact absurd h1 hl256

/-- C18 at the firmware version response of the specification: both
identities hold, `DCS = E8`, and the frame is accepted. -/
theorem C18_exact_acceptance_condition_witness :
    I2C_read ((5 + PN532_FRAME_HEADER_BYTES) % 256)
        (boot [[0x01, 0x00, 0xFF, 0x06, 0xFA, 0xD5, 0x03, 0x32, 0x01, 0x06, 0x07, 0xE8, 0x00]])
      = (some 1, (I2C_read ((5 + PN532_FRAME_HEADER_BYTES) % 256) (boot [[0x01, 0x00, 0xFF,
          0x06, 0xFA, 0xD5, 0x03, 0x32, 0x01, 0x06, 0x07, 0xE8, 0x00]])).2) ∧
    seek_start (I2C_read ((5 + PN532_FRAME_HEADER_BYTES) % 256) (boot [[0x01, 0x00, 0xFF,
          0x06, 0xFA, 0xD5, 0x03, 0x32, 0x01, 0x06, 0x07, 0xE8, 0x00]])).2.frame_buffer 1
      = some 3 ∧
    (0x06 + 0xFA) % 256 = 0 ∧ (0xD5 + [0x03, 0x32, 0x01, 0x06, 0x07].sum + 0xE8) % 256 = 0 ∧
    ∃ v rd1 w2, NFC_read_iter (fun _ => 0xEE) 5 (boot [[0x01, 0x00, 0xFF, 0x06, 0xFA, 0xD5,
      0x03, 0x32, 0x01, 0x06, 0x07, 0xE8, 0x00]]) = (Iter.done (Outcome.ret v), rd1, w2) :=
  have hread : I2C_read ((5 + PN532_FRAME_HEADER_BYTES) % 256)
        (boot [[0x01, 0x00, 0xFF, 0x06, 0xFA, 0xD5, 0x03, 0x32, 0x01, 0x06, 0x07, 0xE8, 0x00]])
      = (some 1, (I2C_read ((5 + PN532_FRAME_HEADER_BYTES) % 256) (boot [[0x01, 0x00, 0xFF,
          0x06, 0xFA, 0xD5, 0x03, 0x32, 0x01, 0x06, 0x07, 0xE8, 0x00]])).2) :=
    Prod.ext (by decide) rfl
  have hseek : seek_start (I2C_read ((5 + PN532_FRAME_HEADER_BYTES) % 256) (boot [[0x01,
      0x00, 0xFF, 0x06, 0xFA, 0xD5, 0x03, 0x32, 0x01, 0x06, 0x07, 0xE8, 0x00]])).2.frame_buffer
      1 = some 3 := by decide
  ⟨hread, hseek, by decide, by decide,
    (C18_exact_acceptance_condition (fun _ => 0xEE) 5 _ _ 1 3 5 hread hseek
      (by decide) (by decide) (by decide) (by decide) (by decide)).1.2
      ⟨by decide, by decide, by decide⟩⟩

/-- C19: for a payload of `n <= 254` bytes `NFC_write` hands one byte sequence
to the transport, of `(n + 8) mod 256` bytes: `n + 8` bytes when `n <= 247`,
and `n + 8 - 256` bytes when `248 <= n`. -/
theorem C19_sent_length_wraps (P : List Nat) (w : World) (hn : P.length ≤ 254) :
    ∃ d, sent (NFC_write (arr P) P.length w).2.log = sent w.log ++ [d] ∧
      d.length = (P.length + 8) % 256 ∧
      (P.length ≤ 247 → d.length = P.length + 8) ∧
      (248 ≤ P.length → d.length = P.length + 8 - 256) := by
  refine ⟨_, NFC_write_sent (arr P) P.length w, ?_⟩
  rw [bytes_length, (NFC_write_build_fields w.frame_buffer P hn).2.2.2]
  refine ⟨rfl, ?_, ?_⟩ <;> intro h <;> omega

/-- C19 at a 250-byte payload: 2 bytes are handed to the transport. -/
theorem C19_sent_length_wraps_witness :
    (List.replicate 250 0x00).length ≤ 254 ∧
    ∃ d, sent (NFC_write (arr (List.replicate 250 0x00)) (List.replicate 250 0x00).length
        (boot [1 :: pn532_ack])).2.log = sent (boot [1 :: pn532_ack]).log ++ [d] ∧
      d.length = ((List.replicate 250 0x00).length + 8) % 256 ∧
      ((List.replicate 250 0x00).length ≤ 247 →
        d.length = (List.replicate 250 0x00).length + 8) ∧
      (248 ≤ (List.replicate 250 0x00).length →
        d.length = (List.replicate 250 0x00).length + 8 - 256) :=
  ⟨by decide, C19_sent_length_wraps (List.replicate 250 0x00) (boot [1 :: pn532_ack])
    (by decide)⟩

end PN532
